import Mathlib

/-!
Shallow embedding of the Student-Management query engine
(`src/include/database.hpp`) and proofs about it.

Modelling conventions:
* `nlohmann::json` values are modelled by `Val` restricted to the shapes the
  engine's statements actually produce: null, booleans, (arbitrary-precision)
  integers and strings.  Floating-point literals, arrays and nested objects
  are outside the model; no property below exercises them.
* `std::unordered_map` is modelled by an association list with
  insert-or-assign (`setA`) and lookup (`getA`) semantics; iteration order in
  the C++ map is unspecified, so properties never depend on entry order of
  these maps, only on lookups.
* C++ exceptions are modelled by threading the mutated state next to an
  `Option DbError` / `Except DbError` result: mutations performed before a
  throw are visible in the returned state, exactly as with a `Table&`
  argument in the source.
* auto-increment counters are `int64_t` in the source; they stay far from
  the 64-bit boundary in every behaviour considered here, so they are
  modelled as unbounded `Int`.
-/

set_option maxHeartbeats 1000000

deriving instance DecidableEq for Except

namespace StudentDb

/-- Dynamic (JSON-like) values stored in the database. -/
inductive Val where
  | null
  | bool (b : Bool)
  | int (n : Int)
  | str (s : String)
deriving DecidableEq, Repr

/-- `enum class DType` from the source. -/
inductive DType where
  | TEXT
  | CHAR
  | INT
  | FLOAT
  | REAL
  | RELATION
deriving DecidableEq, Repr

/-- `static_cast<int>(type)` used by `Serialize`. -/
def dtypeToNat : DType → Nat
  | .TEXT => 0
  | .CHAR => 1
  | .INT => 2
  | .FLOAT => 3
  | .REAL => 4
  | .RELATION => 5

/-- `static_cast<DType>(n)` used by `Deserialize`; only the tags 0–5 produced
by `Serialize` occur in snapshots, values outside that range are not
modelled (they are undefined behaviour territory in the source). -/
def dtypeOfNat : Nat → DType
  | 0 => .TEXT
  | 1 => .CHAR
  | 2 => .INT
  | 3 => .FLOAT
  | 4 => .REAL
  | _ => .RELATION

/-- `struct Value` : a stored value tagged with the declared column type. -/
structure Value where
  type : DType
  data : Val
deriving DecidableEq, Repr

/-- `struct Attribute` : a column definition with its SQL-like qualifiers. -/
structure Attribute where
  name : String
  type : DType
  isPrimaryKey : Bool := false
  isAutoIncrement : Bool := false
  isNotNull : Bool := false
  hasDefault : Bool := false
  defaultValue : Val := .null
deriving DecidableEq, Repr

/-- Lookup in an association list (models `std::unordered_map::find` /
`contains` / `at`). -/
def getA {α : Type} : List (String × α) → String → Option α
  | [], _ => none
  | (k, v) :: rest, n => if k = n then some v else getA rest n

/-- Insert-or-assign in an association list (models `map[key] = value`). -/
def setA {α : Type} : List (String × α) → String → α → List (String × α)
  | [], n, v => [(n, v)]
  | (k, w) :: rest, n, v =>
      if k = n then (n, v) :: rest else (k, w) :: setA rest n v

/-- `struct Entity` : a row, a map from column name to stored value. -/
abbrev Entity := List (String × Value)

/-- `struct Table` : schema, rows (in insertion order) and the per-column
auto-increment counters. -/
structure Table where
  name : String
  schema : List Attribute
  rows : List Entity
  autoIncCounters : List (String × Int)
deriving DecidableEq, Repr

/-- Reading `autoIncCounters[c]`: `operator[]` default-constructs the counter
to `0` when absent, and the engine compares it against `0` before use, so
the observable counter of an absent entry is `0`. -/
def Table.getCounter (t : Table) (c : String) : Int :=
  (getA t.autoIncCounters c).getD 0

/-- Writing `autoIncCounters[c] = v`. -/
def Table.setCounter (t : Table) (c : String) (v : Int) : Table :=
  { t with autoIncCounters := setA t.autoIncCounters c v }

/-- The exceptions thrown by the engine, one constructor per `throw` site
(plus `mapAtFailure` for `std::out_of_range` escaping from
`unordered_map::at`, and `jsonParseError` for `nlohmann::json::parse`
failures). -/
inductive DbError where
  | emptyQuery
  | unknownCommand (s : String)
  | invalidCreateSyntax
  | createNeedsParens
  | duplicateTable (s : String)
  | invalidColumnDef (s : String)
  | unknownType (s : String)
  | unterminatedDefault (s : String)
  | invalidInsertSyntax
  | insertNeedsJson
  | jsonParseError
  | invalidSelectSyntax
  | tableNotFound (s : String)
  | missingColumn (s : String)
  | duplicatePrimaryKey (s : String)
  | mapAtFailure (s : String)
deriving DecidableEq, Repr

/-- The first loop of `Insert` (database.hpp:181–213): walk the schema in
declaration order building `row.fields`, consuming auto-increment counters
as it goes.  The returned table carries the counter mutations performed
before a potential `throw`, matching the by-reference mutation in C++. -/
def buildRowLoop :
    List Attribute → List (String × Val) → Table → Entity →
      Table × Entity × Option DbError
  | [], _, t, row => (t, row, none)
  | a :: rest, values, t, row =>
      match getA values a.name with
      | some v => buildRowLoop rest values t (setA row a.name ⟨a.type, v⟩)
      | none =>
          if a.isAutoIncrement then
            let c0 := t.getCounter a.name
            let c := if c0 = 0 then 1 else c0
            buildRowLoop rest values (t.setCounter a.name (c + 1))
              (setA row a.name ⟨a.type, .int c⟩)
          else if a.hasDefault then
            buildRowLoop rest values t (setA row a.name ⟨a.type, a.defaultValue⟩)
          else if a.isNotNull then
            (t, row, some (.missingColumn a.name))
          else
            buildRowLoop rest values t (setA row a.name ⟨a.type, .null⟩)

/-- Candidate-row construction for `Insert` starting from an empty row. -/
def buildRow (t : Table) (values : List (String × Val)) :
    Table × Entity × Option DbError :=
  buildRowLoop t.schema values t []

/-- Inner scan of the primary-key check (database.hpp:221–225): compare the
candidate's value against every existing row; `existing.fields.at(key)` can
itself throw if a row lacks the column. -/
def findDup (key : String) (v : Val) : List Entity → Option DbError
  | [] => none
  | e :: rest =>
      match getA e key with
      | none => some (.mapAtFailure key)
      | some w => if w.data = v then some (.duplicatePrimaryKey key) else findDup key v rest

/-- Primary-key uniqueness check (database.hpp:216–226), in schema order. -/
def pkCheck : List Attribute → List Entity → Entity → Option DbError
  | [], _, _ => none
  | a :: rest, rows, row =>
      if a.isPrimaryKey then
        match getA row a.name with
        | none => some (.mapAtFailure a.name)
        | some v =>
            match findDup a.name v.data rows with
            | some e => some e
            | none => pkCheck rest rows row
      else pkCheck rest rows row

/-- `Insert` (database.hpp:177–229).  Returns the post-call table (mutations
before a throw persist) together with the error, if any. -/
def Insert (t : Table) (values : List (String × Val)) : Table × Option DbError :=
  match buildRow t values with
  | (t', _, some e) => (t', some e)
  | (t', row, none) =>
      match pkCheck t'.schema t'.rows row with
      | some e => (t', some e)
      | none => ({ t' with rows := t'.rows ++ [row] }, none)

/-- Row scan of `Select` (database.hpp:238–242). -/
def selectLoop (column : String) (value : Val) :
    List Entity → Except DbError (List Entity)
  | [] => .ok []
  | r :: rest =>
      match getA r column with
      | none => .error (.mapAtFailure column)
      | some w =>
          if w.data = value then
            (selectLoop column value rest).map (r :: ·)
          else
            selectLoop column value rest

/-- `Select` (database.hpp:231–245): linear scan collecting the rows whose
value under `column` equals `value`, in insertion order. -/
def Select (t : Table) (column : String) (value : Val) :
    Except DbError (List Entity) :=
  selectLoop column value t.rows

/-! ### Statement parsing (`Tokenize`, `ExecuteQuery`) -/

/-- `isspace` in the C locale. -/
def cppIsSpace (c : Char) : Bool :=
  c = ' ' || c = '\t' || c = '\n' || c = '\x0b' || c = '\x0c' || c = '\r'

/-- Stream extraction `ss >> tok`: maximal runs of non-whitespace characters,
in order.  `acc` holds the (reversed) run being read. -/
def cppTokensAux : List Char → List Char → List (List Char)
  | [], acc => if acc = [] then [] else [acc.reverse]
  | c :: cs, acc =>
      if cppIsSpace c then
        if acc = [] then cppTokensAux cs [] else acc.reverse :: cppTokensAux cs []
      else cppTokensAux cs (c :: acc)

/-- `Tokenize` (database.hpp:286–296). -/
def Tokenize (q : String) : List String :=
  (cppTokensAux q.toList []).map (fun cs => ⟨cs⟩)

/-- `std::string::find(substring)` with running index. -/
def findSubAux (needle : List Char) : List Char → Nat → Option Nat
  | [], i => if List.isPrefixOf needle [] then some i else none
  | c :: cs, i =>
      if List.isPrefixOf needle (c :: cs) then some i
      else findSubAux needle cs (i + 1)

/-- `std::string::find(substring)`: index of the first occurrence. -/
def findSub? (needle hay : List Char) : Option Nat :=
  findSubAux needle hay 0

/-- `std::string::find(char)`. -/
def chFindIdx? (c : Char) (cs : List Char) : Option Nat :=
  cs.findIdx? (· = c)

/-- `std::string::rfind(char)`: index of the last occurrence. -/
def chRFindIdx? (c : Char) (cs : List Char) : Option Nat :=
  match cs.reverse.findIdx? (· = c) with
  | none => none
  | some i => some (cs.length - 1 - i)

/-- `std::string::find_first_of(set)`: first index holding ANY character of
`set` (this is what line 376 of the source calls with `"DEFAULT"`). -/
def findFirstOf? (set cs : List Char) : Option Nat :=
  cs.findIdx? (fun c => set.contains c)

/-- Trimming with `find_first_not_of(" \t\n\r")` / `find_last_not_of` as in
the CREATE column loop (database.hpp:330–333). -/
def trimWs (cs : List Char) : List Char :=
  let ws : List Char := [' ', '\t', '\n', '\r']
  ((cs.dropWhile (fun c => ws.contains c)).reverse.dropWhile
    (fun c => ws.contains c)).reverse

/-- Digits of a decimal numeral to a natural number. -/
def digitsToNat (cs : List Char) : Nat :=
  cs.foldl (fun a c => a * 10 + (c.toNat - 48)) 0

/-- JSON unsigned-integer grammar: `0 | [1-9][0-9]*`. -/
def parseNatChars? (cs : List Char) : Option Nat :=
  if cs = [] then none
  else if cs.all Char.isDigit then
    if 1 < cs.length ∧ cs.head? = some '0' then none
    else some (digitsToNat cs)
  else none

/-- JSON integer grammar with optional leading minus. -/
def parseIntChars? : List Char → Option Int
  | '-' :: rest => (parseNatChars? rest).map (fun n => -(n : Int))
  | cs => (parseNatChars? cs).map (fun n => (n : Int))

/-- `nlohmann::json::parse` on a bare scalar token, restricted to the
modelled value subset (null / booleans / integers); returns `none` exactly
when the C++ parse throws on such a token. -/
def jsonAtom? (cs : List Char) : Option Val :=
  if cs = "null".toList then some .null
  else if cs = "true".toList then some (.bool true)
  else if cs = "false".toList then some (.bool false)
  else (parseIntChars? cs).map Val.int

/-- Skip JSON insignificant whitespace. -/
def skipWsL (cs : List Char) : List Char :=
  cs.dropWhile cppIsSpace

/-- Parse a double-quoted JSON string (escape sequences are outside the
modelled subset). -/
def parseJstring (cs : List Char) : Option (String × List Char) :=
  match cs with
  | '"' :: rest =>
      let body := rest.takeWhile (· ≠ '"')
      match rest.dropWhile (· ≠ '"') with
      | '"' :: tail => some (⟨body⟩, tail)
      | _ => none
  | _ => none

/-- Parse one JSON scalar value (string or bare atom). -/
def parseJscalar (cs : List Char) : Option (Val × List Char) :=
  match parseJstring cs with
  | some (s, rest) => some (.str s, rest)
  | none =>
      let tok := cs.takeWhile (fun c => !cppIsSpace c && c ≠ ',' && c ≠ '}' && c ≠ ':')
      match jsonAtom? tok with
      | some v => some (v, cs.drop tok.length)
      | none => none

/-- Parse the comma-separated members of a JSON object (fuelled recursion;
the fuel is sized to the input in `parseJobject`, so it never runs out). -/
def parseJfields : Nat → List Char → Option (List (String × Val) × List Char)
  | 0, _ => none
  | fuel + 1, cs =>
      match parseJstring (skipWsL cs) with
      | none => none
      | some (k, rest) =>
          match skipWsL rest with
          | ':' :: rest2 =>
              (match parseJscalar (skipWsL rest2) with
               | none => none
               | some (v, rest3) =>
                   match skipWsL rest3 with
                   | ',' :: rest4 =>
                       match parseJfields fuel rest4 with
                       | some (fs, rem) => some ((k, v) :: fs, rem)
                       | none => none
                   | rem => some ([(k, v)], rem))
          | _ => none

/-- `nlohmann::json::parse` of an INSERT payload, restricted to the modelled
subset: one flat object whose values are scalars.  `none` models a thrown
`json::parse_error`. -/
def parseJobject (cs : List Char) : Option (List (String × Val)) :=
  match skipWsL cs with
  | '{' :: rest =>
      (match skipWsL rest with
       | '}' :: tail => if skipWsL tail = [] then some [] else none
       | body =>
           match parseJfields (body.length + 1) body with
           | some (fs, rem) =>
               match skipWsL rem with
               | '}' :: tail => if skipWsL tail = [] then some fs else none
               | _ => none
           | none => none)
  | _ => none

/-- The six recognized type names, matched after uppercasing
(database.hpp:350–356). -/
def typeOfUpper? (s : List Char) : Option DType :=
  if s = "TEXT".toList then some .TEXT
  else if s = "CHAR".toList then some .CHAR
  else if s = "INT".toList then some .INT
  else if s = "FLOAT".toList then some .FLOAT
  else if s = "REAL".toList then some .REAL
  else if s = "RELATION".toList then some .RELATION
  else none

/-- One column definition of a CREATE TABLE statement
(database.hpp:335–403), already trimmed.  Note: line 376 of the source
calls `find_first_of("DEFAULT")`, which locates the first occurrence of any
single character of `"DEFAULT"`, not of the substring — this is modelled
verbatim by `findFirstOf?`. -/
def parseColDef (defn : List Char) : Except DbError Attribute :=
  let toks := cppTokensAux defn []
  let colName := (toks.get? 0).getD []
  let typeStr := (toks.get? 1).getD []
  if colName = [] ∨ typeStr = [] then .error (.invalidColumnDef ⟨defn⟩)
  else
    let modifiers :=
      match findSub? typeStr defn with
      | some p => defn.drop (p + typeStr.length)
      | none => []
    let typeUp := typeStr.map Char.toUpper
    match typeOfUpper? typeUp with
    | none => .error (.unknownType ⟨typeUp⟩)
    | some dtype =>
        let up := modifiers.map Char.toUpper
        let attr0 : Attribute :=
          { name := ⟨colName⟩, type := dtype,
            isAutoIncrement := (findSub? "AUTO".toList up).isSome,
            isPrimaryKey := (findSub? "PRIMARY".toList up).isSome &&
                            (findSub? "KEY".toList up).isSome,
            isNotNull := (findSub? "NOT".toList up).isSome &&
                         (findSub? "NULL".toList up).isSome }
        match findSub? "DEFAULT".toList up with
        | none => .ok attr0
        | some defPos =>
            let origDefPos := (findFirstOf? "DEFAULT".toList modifiers).getD defPos
            let vpos := origDefPos + 7 +
              ((modifiers.drop (origDefPos + 7)).takeWhile cppIsSpace).length
            if h : vpos < modifiers.length then
              if modifiers.get ⟨vpos, h⟩ = '"' then
                match chFindIdx? '"' (modifiers.drop (vpos + 1)) with
                | none => .error (.unterminatedDefault ⟨defn⟩)
                | some endq =>
                    .ok { attr0 with
                          hasDefault := true
                          defaultValue := .str ⟨(modifiers.drop (vpos + 1)).take endq⟩ }
              else
                let dv := (modifiers.drop vpos).takeWhile (fun c => !cppIsSpace c)
                .ok { attr0 with
                      hasDefault := true
                      defaultValue := (jsonAtom? dv).getD (.str ⟨dv⟩) }
            else .ok attr0

/-- `class Database`: the table map plus the optional credential pair. -/
structure Database where
  name : String
  tables : List (String × Table)
  authUser : String := ""
  authPassHash : String := ""
deriving DecidableEq, Repr

/-- `Database::CreateTable`: insert-or-assign a fresh empty table. -/
def Database.createTable (db : Database) (n : String) : Database :=
  { db with tables := setA db.tables n ⟨n, [], [], []⟩ }

/-- Write back a (mutated-by-reference) table. -/
def Database.setTable (db : Database) (n : String) (t : Table) : Database :=
  { db with tables := setA db.tables n t }

/-- `struct QueryResult`. -/
structure QueryResult where
  hasResult : Bool := false
  rows : List Entity := []
deriving DecidableEq, Repr

/-- The CREATE column loop (database.hpp:328–409): each definition is
trimmed, empty ones skipped, parsed ones appended to the schema one at a
time with auto-increment counters initialized to 1; on a parse failure the
schema built so far survives (the exception leaves the table in the map). -/
def createCols : List (List Char) → Table → Table × Option DbError
  | [], t => (t, none)
  | d :: rest, t =>
      let tr := trimWs d
      if tr = [] then createCols rest t
      else
        match parseColDef tr with
        | .error e => (t, some e)
        | .ok attr =>
            let t1 := { t with schema := t.schema ++ [attr] }
            let t2 := if attr.isAutoIncrement then t1.setCounter attr.name 1 else t1
            createCols rest t2

/-- The CREATE branch of `ExecuteQuery` (database.hpp:308–412). -/
def createBranch (db : Database) (q : List Char) (toks : List String) :
    Database × Except DbError QueryResult :=
  if toks.length < 3 ∨ toks.get? 1 ≠ some "TABLE" then
    (db, .error .invalidCreateSyntax)
  else
    match chFindIdx? '(' q, chRFindIdx? ')' q with
    | some ps, some pe =>
        if pe < ps then (db, .error .createNeedsParens)
        else
          let tableName := (toks.get? 2).getD ""
          if (getA db.tables tableName).isSome then
            (db, .error (.duplicateTable tableName))
          else
            let db1 := db.createTable tableName
            let colsText := (q.drop (ps + 1)).take (pe - ps - 1)
            match createCols (colsText.splitOn ',') ⟨tableName, [], [], []⟩ with
            | (t, some e) => (db1.setTable tableName t, .error e)
            | (t, none) => (db1.setTable tableName t, .ok {})
    | _, _ => (db, .error .createNeedsParens)

/-- The INSERT branch of `ExecuteQuery` (database.hpp:417–433).  The brace
span is `substr(jsonStart, jsonEnd - jsonStart + 1)`; when the last `}`
precedes the first `{` the unsigned length underflows and `substr` takes
the rest of the string, modelled by the `else` arm. -/
def insertBranch (db : Database) (q : List Char) (toks : List String) :
    Database × Except DbError QueryResult :=
  if toks.length < 2 then (db, .error .invalidInsertSyntax)
  else
    match chFindIdx? '{' q, chRFindIdx? '}' q with
    | some js, some je =>
        let jsonText := if js ≤ je then (q.drop js).take (je + 1 - js) else q.drop js
        (match parseJobject jsonText with
         | none => (db, .error .jsonParseError)
         | some values =>
             let tname := (toks.get? 1).getD ""
             match getA db.tables tname with
             | none => (db, .error (.tableNotFound tname))
             | some t =>
                 match Insert t values with
                 | (t', some e) => (db.setTable tname t', .error e)
                 | (t', none) => (db.setTable tname t', .ok {}))
    | _, _ => (db, .error .insertNeedsJson)

/-- The SELECT predicate value (database.hpp:457–461): a token starting with
`"` is stripped of its first and last character, otherwise it is parsed as
a structured literal. -/
def parseSelectValue (vtok : String) : Except DbError Val :=
  match vtok.toList with
  | '"' :: rest => .ok (.str ⟨(('"' :: rest).drop 1).dropLast⟩)
  | cs =>
      match jsonAtom? cs with
      | some v => .ok v
      | none => .error .jsonParseError

/-- The SELECT branch of `ExecuteQuery` (database.hpp:439–468). -/
def selectBranch (db : Database) (toks : List String) :
    Database × Except DbError QueryResult :=
  if toks.length < 2 then (db, .error .invalidSelectSyntax)
  else
    let tname := (toks.get? 1).getD ""
    match getA db.tables tname with
    | none => (db, .error (.tableNotFound tname))
    | some t =>
        if toks.length = 2 then (db, .ok { hasResult := true, rows := t.rows })
        else if 6 ≤ toks.length ∧ toks.get? 2 = some "WHERE" ∧ toks.get? 4 = some "=" then
          match parseSelectValue ((toks.get? 5).getD "") with
          | .error e => (db, .error e)
          | .ok value =>
              match Select t ((toks.get? 3).getD "") value with
              | .error e => (db, .error e)
              | .ok rows => (db, .ok { hasResult := true, rows := rows })
        else (db, .error .invalidSelectSyntax)

/-- `ExecuteQuery` (database.hpp:298–471): tokenize and dispatch.  The
returned database carries every mutation performed before a thrown
exception, exactly as the C++ `Database&` does. -/
def ExecuteQuery (db : Database) (q : String) : Database × Except DbError QueryResult :=
  let toks := Tokenize q
  match toks.head? with
  | none => (db, .error .emptyQuery)
  | some h =>
      if h = "CREATE" then createBranch db q.toList toks
      else if h = "INSERT" then insertBranch db q.toList toks
      else if h = "SELECT" then selectBranch db toks
      else (db, .error (.unknownCommand h))

/-! ### Persistence codec (`Serialize`, `Deserialize`) -/

/-- One column descriptor of a snapshot: `Serialize` (database.hpp:485–496)
emits `name` and `type` always, and each qualifier key only when the flag is
true (`default` only when a default exists); `Option` models key presence. -/
structure AttrSnap where
  name : String
  type : Nat
  primary : Option Bool := none
  auto : Option Bool := none
  notNull : Option Bool := none
  dflt : Option Val := none
deriving DecidableEq, Repr

/-- One table of a snapshot: the `schema` and `rows` arrays.  `Serialize`
omits the keys entirely when empty and `Deserialize` skips absent keys; an
absent key and an empty array are observationally identical on load, so
both are modelled by `[]`. -/
structure TableSnap where
  schema : List AttrSnap := []
  rows : List (List (String × Val)) := []
deriving DecidableEq, Repr

/-- Column serialization (database.hpp:485–496). -/
def serializeAttr (a : Attribute) : AttrSnap :=
  { name := a.name
    type := dtypeToNat a.type
    primary := if a.isPrimaryKey then some true else none
    auto := if a.isAutoIncrement then some true else none
    notNull := if a.isNotNull then some true else none
    dflt := if a.hasDefault then some a.defaultValue else none }

/-- Row serialization (database.hpp:498–504): only the dynamic value is
persisted, the declared-type tag is dropped. -/
def serializeRow (e : Entity) : List (String × Val) :=
  e.map (fun kv => (kv.1, kv.2.data))

/-- Table serialization (database.hpp:481–506). -/
def serializeTable (t : Table) : TableSnap :=
  { schema := t.schema.map serializeAttr
    rows := t.rows.map serializeRow }

/-- Column reconstruction (database.hpp:541–550): absent qualifier keys
leave the constructor defaults. -/
def deserializeAttr (s : AttrSnap) : Attribute :=
  { name := s.name
    type := dtypeOfNat s.type
    isPrimaryKey := s.primary.getD false
    isAutoIncrement := s.auto.getD false
    isNotNull := s.notNull.getD false
    hasDefault := s.dflt.isSome
    defaultValue := s.dflt.getD .null }

/-- Schema reconstruction loop (database.hpp:539–554): push each attribute
and initialize its auto-increment counter to 1. -/
def loadSchema : List AttrSnap → Table → Table
  | [], t => t
  | s :: rest, t =>
      let a := deserializeAttr s
      let t1 := { t with schema := t.schema ++ [a] }
      let t2 := if a.isAutoIncrement then t1.setCounter a.name 1 else t1
      loadSchema rest t2

/-- Row replay (database.hpp:556–561): every persisted row goes through the
runtime `Insert`; the first failure aborts the load. -/
def replayRows : List (List (String × Val)) → Table → Except DbError Table
  | [], t => .ok t
  | r :: rest, t =>
      match Insert t r with
      | (_, some e) => .error e
      | (t', none) => replayRows rest t'

/-- The `maxv` scan (database.hpp:567–577): fold the numeric values of the
column over all rows, starting from 0.  `is_number()` also admits
floating-point values in C++, which lie outside the modelled value
subset. -/
def maxvOf (rows : List Entity) (c : String) : Int :=
  rows.foldl (fun m r =>
    match getA r c with
    | some w =>
        match w.data with
        | .int v => if m < v then v else m
        | _ => m
    | none => m) 0

/-- Counter recomputation (database.hpp:563–579): for every auto-increment
column set the counter to `maxv + 1`. -/
def recomputeLoop : List Attribute → Table → Table
  | [], t => t
  | a :: rest, t =>
      if a.isAutoIncrement then
        recomputeLoop rest (t.setCounter a.name (maxvOf t.rows a.name + 1))
      else recomputeLoop rest t

/-- Counter recomputation over the whole schema. -/
def recomputeCounters (t : Table) : Table :=
  recomputeLoop t.schema t

/-- Load one table from its snapshot entry (database.hpp:537–580). -/
def deserializeTable (n : String) (snap : TableSnap) : Except DbError Table :=
  match replayRows snap.rows (loadSchema snap.schema ⟨n, [], [], []⟩) with
  | .error e => .error e
  | .ok t => .ok (recomputeCounters t)

/-- A freshly constructed `Database(name)`. -/
def emptyDb (n : String) : Database :=
  ⟨n, [], "", ""⟩

/-! ### Specification-side definitions

These transcribe the wording of the specification (not the code); the
theorems below compare them with the source-translated definitions. -/

/-- The column-filling precedence of `Insert` as the specification states it
(spec §4.2): caller value verbatim; else the auto-increment counter
(a counter that was never initialized reads as 1); else the default;
else `none` marks the `MissingRequiredColumn` failure of a not-null column;
else an explicit null. -/
def specInsertVal (t : Table) (values : List (String × Val)) (a : Attribute) : Option Val :=
  match getA values a.name with
  | some v => some v
  | none =>
      if a.isAutoIncrement then
        some (.int (if t.getCounter a.name = 0 then 1 else t.getCounter a.name))
      else if a.hasDefault then some a.defaultValue
      else if a.isNotNull then none
      else some .null

/-- Structural-equality row predicate of a `WHERE column = value` clause
(spec §4.2): the row's value under `column` equals `value`. -/
def rowMatches (column : String) (v : Val) (r : Entity) : Bool :=
  match getA r column with
  | some w => decide (w.data = v)
  | none => false

/-- A primary-key collision between a candidate row and the existing rows
(spec §4.2): some primary-key column where an existing row's value
structurally equals the candidate's. -/
def pkCollision (s : List Attribute) (rows : List Entity) (row : Entity) : Prop :=
  ∃ a ∈ s, a.isPrimaryKey = true ∧
    ∃ e ∈ rows, ∃ w w', getA e a.name = some w ∧ getA row a.name = some w' ∧
      w.data = w'.data

/-- The integer values stored under column `c`, row by row (spec §4.4: "the
maximum numeric value observed across all rows for that column"). -/
def columnIntValues (rows : List Entity) (c : String) : List Int :=
  rows.filterMap (fun r =>
    match getA r c with
    | some w =>
        match w.data with
        | .int v => some v
        | _ => none
    | none => none)

/-! ### Association-list lemmas -/

theorem getA_setA_self {α : Type} (l : List (String × α)) (n : String) (v : α) :
    getA (setA l n v) n = some v := by
  induction l with
  | nil => simp [getA, setA]
  | cons kv rest ih =>
      obtain ⟨k, w⟩ := kv
      by_cases h : k = n <;> simp [getA, setA, h, ih]

theorem getA_setA_ne {α : Type} (l : List (String × α)) (n m : String) (v : α)
    (h : n ≠ m) :
    getA (setA l n v) m = getA l m := by
  induction l with
  | nil => simp [getA, setA, h]
  | cons kv rest ih =>
      obtain ⟨k, w⟩ := kv
      by_cases hk : k = n
      · subst hk
        simp [getA, setA, h, Ne.symm h]
      · simp [getA, setA, hk, ih]

theorem isSome_getA_setA {α : Type} (l : List (String × α)) (n m : String) (v : α)
    (h : (getA l m).isSome) :
    (getA (setA l n v) m).isSome := by
  by_cases hnm : n = m
  · subst hnm
    simp [getA_setA_self]
  · rwa [getA_setA_ne l n m v hnm]

theorem getCounter_setCounter_self (t : Table) (n : String) (v : Int) :
    (t.setCounter n v).getCounter n = v := by
  simp [Table.getCounter, Table.setCounter, getA_setA_self]

theorem getCounter_setCounter_ne (t : Table) (n m : String) (v : Int) (h : n ≠ m) :
    (t.setCounter n v).getCounter m = t.getCounter m := by
  simp [Table.getCounter, Table.setCounter, getA_setA_ne _ _ _ _ h]

theorem setCounter_schema (t : Table) (n : String) (v : Int) :
    (t.setCounter n v).schema = t.schema := rfl

theorem setCounter_rows (t : Table) (n : String) (v : Int) :
    (t.setCounter n v).rows = t.rows := rfl

theorem setCounter_name (t : Table) (n : String) (v : Int) :
    (t.setCounter n v).name = t.name := rfl

/-! ### `buildRowLoop` lemmas -/

theorem buildRowLoop_table_inv (s : List Attribute) (values : List (String × Val))
    (t : Table) (row : Entity) :
    (buildRowLoop s values t row).1.schema = t.schema ∧
    (buildRowLoop s values t row).1.rows = t.rows ∧
    (buildRowLoop s values t row).1.name = t.name := by
  induction s generalizing t row with
  | nil => exact ⟨rfl, rfl, rfl⟩
  | cons a rest ih =>
      cases hv : getA values a.name with
      | some v =>
          simpa only [buildRowLoop, hv] using ih t (setA row a.name ⟨a.type, v⟩)
      | none =>
          by_cases hA : a.isAutoIncrement = true
          · simpa only [buildRowLoop, hv, hA, if_true, setCounter_schema,
              setCounter_rows, setCounter_name] using
                ih (t.setCounter a.name
                      ((if t.getCounter a.name = 0 then 1 else t.getCounter a.name) + 1))
                  (setA row a.name
                    ⟨a.type, .int (if t.getCounter a.name = 0 then 1 else t.getCounter a.name)⟩)
          · by_cases hD : a.hasDefault = true
            · simpa only [buildRowLoop, hv, hA, hD, if_true, if_false,
                Bool.false_eq_true, ite_false] using
                  ih t (setA row a.name ⟨a.type, a.defaultValue⟩)
            · by_cases hN : a.isNotNull = true
              · simp [buildRowLoop, hv, hA, hD, hN]
              · simpa only [buildRowLoop, hv, hA, hD, hN, Bool.false_eq_true,
                  ite_false] using ih t (setA row a.name ⟨a.type, .null⟩)

theorem buildRowLoop_field_stable (s : List Attribute) (values : List (String × Val))
    (t : Table) (row : Entity) (n : String) (hn : n ∉ s.map (·.name)) :
    getA (buildRowLoop s values t row).2.1 n = getA row n := by
  induction s generalizing t row with
  | nil => rfl
  | cons a rest ih =>
      simp only [List.map_cons, List.mem_cons, not_or] at hn
      obtain ⟨hna, hnr⟩ := hn
      have hne : a.name ≠ n := fun hh => hna hh.symm
      cases hv : getA values a.name with
      | some v =>
          rw [show buildRowLoop (a :: rest) values t row
              = buildRowLoop rest values t (setA row a.name ⟨a.type, v⟩) by
            simp [buildRowLoop, hv]]
          rw [ih _ _ hnr, getA_setA_ne _ _ _ _ hne]
      | none =>
          by_cases hA : a.isAutoIncrement = true
          · rw [show buildRowLoop (a :: rest) values t row
                = buildRowLoop rest values
                    (t.setCounter a.name
                      ((if t.getCounter a.name = 0 then 1 else t.getCounter a.name) + 1))
                    (setA row a.name
                      ⟨a.type, .int (if t.getCounter a.name = 0 then 1 else t.getCounter a.name)⟩) by
              simp [buildRowLoop, hv, hA]]
            rw [ih _ _ hnr, getA_setA_ne _ _ _ _ hne]
          · by_cases hD : a.hasDefault = true
            · rw [show buildRowLoop (a :: rest) values t row
                  = buildRowLoop rest values t (setA row a.name ⟨a.type, a.defaultValue⟩) by
                simp [buildRowLoop, hv, hA, hD]]
              rw [ih _ _ hnr, getA_setA_ne _ _ _ _ hne]
            · by_cases hN : a.isNotNull = true
              · simp [buildRowLoop, hv, hA, hD, hN]
              · rw [show buildRowLoop (a :: rest) values t row
                    = buildRowLoop rest values t (setA row a.name ⟨a.type, .null⟩) by
                  simp [buildRowLoop, hv, hA, hD, hN]]
                rw [ih _ _ hnr, getA_setA_ne _ _ _ _ hne]

theorem buildRowLoop_counter_stable (s : List Attribute) (values : List (String × Val))
    (t : Table) (row : Entity) (c : String) (hc : c ∉ s.map (·.name)) :
    (buildRowLoop s values t row).1.getCounter c = t.getCounter c := by
  induction s generalizing t row with
  | nil => rfl
  | cons a rest ih =>
      simp only [List.map_cons, List.mem_cons, not_or] at hc
      obtain ⟨hca, hcr⟩ := hc
      have hne : a.name ≠ c := fun hh => hca hh.symm
      cases hv : getA values a.name with
      | some v =>
          rw [show buildRowLoop (a :: rest) values t row
              = buildRowLoop rest values t (setA row a.name ⟨a.type, v⟩) by
            simp [buildRowLoop, hv]]
          exact ih _ _ hcr
      | none =>
          by_cases hA : a.isAutoIncrement = true
          · rw [show buildRowLoop (a :: rest) values t row
                = buildRowLoop rest values
                    (t.setCounter a.name
                      ((if t.getCounter a.name = 0 then 1 else t.getCounter a.name) + 1))
                    (setA row a.name
                      ⟨a.type, .int (if t.getCounter a.name = 0 then 1 else t.getCounter a.name)⟩) by
              simp [buildRowLoop, hv, hA]]
            rw [ih _ _ hcr, getCounter_setCounter_ne _ _ _ _ hne]
          · by_cases hD : a.hasDefault = true
            · rw [show buildRowLoop (a :: rest) values t row
                  = buildRowLoop rest values t (setA row a.name ⟨a.type, a.defaultValue⟩) by
                simp [buildRowLoop, hv, hA, hD]]
              exact ih _ _ hcr
            · by_cases hN : a.isNotNull = true
              · simp [buildRowLoop, hv, hA, hD, hN]
              · rw [show buildRowLoop (a :: rest) values t row
                    = buildRowLoop rest values t (setA row a.name ⟨a.type, .null⟩) by
                  simp [buildRowLoop, hv, hA, hD, hN]]
                exact ih _ _ hcr

theorem buildRowLoop_counter_supplied (s : List Attribute) (values : List (String × Val))
    (t : Table) (row : Entity) (c : String) (hc : (getA values c).isSome) :
    (buildRowLoop s values t row).1.getCounter c = t.getCounter c := by
  induction s generalizing t row with
  | nil => rfl
  | cons a rest ih =>
      cases hv : getA values a.name with
      | some v =>
          rw [show buildRowLoop (a :: rest) values t row
              = buildRowLoop rest values t (setA row a.name ⟨a.type, v⟩) by
            simp [buildRowLoop, hv]]
          exact ih _ _
      | none =>
          have hne : a.name ≠ c := by
            intro hh
            rw [hh] at hv
            rw [hv] at hc
            simp at hc
          by_cases hA : a.isAutoIncrement = true
          · rw [show buildRowLoop (a :: rest) values t row
                = buildRowLoop rest values
                    (t.setCounter a.name
                      ((if t.getCounter a.name = 0 then 1 else t.getCounter a.name) + 1))
                    (setA row a.name
                      ⟨a.type, .int (if t.getCounter a.name = 0 then 1 else t.getCounter a.name)⟩) by
              simp [buildRowLoop, hv, hA]]
            rw [ih _ _, getCounter_setCounter_ne _ _ _ _ hne]
          · by_cases hD : a.hasDefault = true
            · rw [show buildRowLoop (a :: rest) values t row
                  = buildRowLoop rest values t (setA row a.name ⟨a.type, a.defaultValue⟩) by
                simp [buildRowLoop, hv, hA, hD]]
              exact ih _ _
            · by_cases hN : a.isNotNull = true
              · simp [buildRowLoop, hv, hA, hD, hN]
              · rw [show buildRowLoop (a :: rest) values t row
                    = buildRowLoop rest values t (setA row a.name ⟨a.type, .null⟩) by
                  simp [buildRowLoop, hv, hA, hD, hN]]
                exact ih _ _

theorem buildRowLoop_cons_supplied (a : Attribute) (rest : List Attribute)
    (values : List (String × Val)) (t : Table) (row : Entity) (v : Val)
    (hv : getA values a.name = some v) :
    buildRowLoop (a :: rest) values t row
      = buildRowLoop rest values t (setA row a.name ⟨a.type, v⟩) := by
  simp [buildRowLoop, hv]

theorem buildRowLoop_cons_auto (a : Attribute) (rest : List Attribute)
    (values : List (String × Val)) (t : Table) (row : Entity)
    (hv : getA values a.name = none) (hA : a.isAutoIncrement = true) :
    buildRowLoop (a :: rest) values t row
      = buildRowLoop rest values
          (t.setCounter a.name
            ((if t.getCounter a.name = 0 then 1 else t.getCounter a.name) + 1))
          (setA row a.name
            ⟨a.type, .int (if t.getCounter a.name = 0 then 1 else t.getCounter a.name)⟩) := by
  simp [buildRowLoop, hv, hA]

theorem buildRowLoop_cons_default (a : Attribute) (rest : List Attribute)
    (values : List (String × Val)) (t : Table) (row : Entity)
    (hv : getA values a.name = none) (hA : a.isAutoIncrement = false)
    (hD : a.hasDefault = true) :
    buildRowLoop (a :: rest) values t row
      = buildRowLoop rest values t (setA row a.name ⟨a.type, a.defaultValue⟩) := by
  simp [buildRowLoop, hv, hA, hD]

theorem buildRowLoop_cons_notnull (a : Attribute) (rest : List Attribute)
    (values : List (String × Val)) (t : Table) (row : Entity)
    (hv : getA values a.name = none) (hA : a.isAutoIncrement = false)
    (hD : a.hasDefault = false) (hN : a.isNotNull = true) :
    buildRowLoop (a :: rest) values t row = (t, row, some (.missingColumn a.name)) := by
  simp [buildRowLoop, hv, hA, hD, hN]

theorem buildRowLoop_cons_null (a : Attribute) (rest : List Attribute)
    (values : List (String × Val)) (t : Table) (row : Entity)
    (hv : getA values a.name = none) (hA : a.isAutoIncrement = false)
    (hD : a.hasDefault = false) (hN : a.isNotNull = false) :
    buildRowLoop (a :: rest) values t row
      = buildRowLoop rest values t (setA row a.name ⟨a.type, .null⟩) := by
  simp [buildRowLoop, hv, hA, hD, hN]

theorem buildRowLoop_isSome_mono (s : List Attribute) (values : List (String × Val))
    (t : Table) (row : Entity) (n : String) (h : (getA row n).isSome) :
    (getA (buildRowLoop s values t row).2.1 n).isSome := by
  induction s generalizing t row with
  | nil => exact h
  | cons a rest ih =>
      cases hv : getA values a.name with
      | some v =>
          rw [buildRowLoop_cons_supplied a rest values t row v hv]
          exact ih _ _ (isSome_getA_setA _ _ _ _ h)
      | none =>
          by_cases hA : a.isAutoIncrement = true
          · rw [buildRowLoop_cons_auto a rest values t row hv hA]
            exact ih _ _ (isSome_getA_setA _ _ _ _ h)
          · rw [Bool.not_eq_true] at hA
            by_cases hD : a.hasDefault = true
            · rw [buildRowLoop_cons_default a rest values t row hv hA hD]
              exact ih _ _ (isSome_getA_setA _ _ _ _ h)
            · rw [Bool.not_eq_true] at hD
              by_cases hN : a.isNotNull = true
              · rw [buildRowLoop_cons_notnull a rest values t row hv hA hD hN]
                exact h
              · rw [Bool.not_eq_true] at hN
                rw [buildRowLoop_cons_null a rest values t row hv hA hD hN]
                exact ih _ _ (isSome_getA_setA _ _ _ _ h)

theorem buildRowLoop_covers (s : List Attribute) (values : List (String × Val))
    (t : Table) (row : Entity)
    (h : (buildRowLoop s values t row).2.2 = none) :
    ∀ a ∈ s, (getA (buildRowLoop s values t row).2.1 a.name).isSome := by
  induction s generalizing t row with
  | nil => intro a ha; cases ha
  | cons a rest ih =>
      intro b hb
      cases hv : getA values a.name with
      | some v =>
          rw [buildRowLoop_cons_supplied a rest values t row v hv] at h ⊢
          rcases List.mem_cons.mp hb with hbeq | hb
          · rw [hbeq]
            exact buildRowLoop_isSome_mono rest values t
              (setA row a.name ⟨a.type, v⟩) a.name (by rw [getA_setA_self]; rfl)
          · exact ih _ _ h b hb
      | none =>
          by_cases hA : a.isAutoIncrement = true
          · rw [buildRowLoop_cons_auto a rest values t row hv hA] at h ⊢
            rcases List.mem_cons.mp hb with hbeq | hb
            · rw [hbeq]
              exact buildRowLoop_isSome_mono rest values _ _ a.name
                (by rw [getA_setA_self]; rfl)
            · exact ih _ _ h b hb
          · rw [Bool.not_eq_true] at hA
            by_cases hD : a.hasDefault = true
            · rw [buildRowLoop_cons_default a rest values t row hv hA hD] at h ⊢
              rcases List.mem_cons.mp hb with hbeq | hb
              · rw [hbeq]
                exact buildRowLoop_isSome_mono rest values t
                  (setA row a.name ⟨a.type, a.defaultValue⟩) a.name
                  (by rw [getA_setA_self]; rfl)
              · exact ih _ _ h b hb
            · rw [Bool.not_eq_true] at hD
              by_cases hN : a.isNotNull = true
              · rw [buildRowLoop_cons_notnull a rest values t row hv hA hD hN] at h
                simp at h
              · rw [Bool.not_eq_true] at hN
                rw [buildRowLoop_cons_null a rest values t row hv hA hD hN] at h ⊢
                rcases List.mem_cons.mp hb with hbeq | hb
                · rw [hbeq]
                  exact buildRowLoop_isSome_mono rest values t
                    (setA row a.name ⟨a.type, .null⟩) a.name
                    (by rw [getA_setA_self]; rfl)
                · exact ih _ _ h b hb

theorem buildRowLoop_err_none_iff (s : List Attribute) (values : List (String × Val))
    (t : Table) (row : Entity) :
    (buildRowLoop s values t row).2.2 = none ↔
      ∀ a ∈ s, ¬(getA values a.name = none ∧ a.isAutoIncrement = false ∧
                 a.hasDefault = false ∧ a.isNotNull = true) := by
  induction s generalizing t row with
  | nil => simp [buildRowLoop]
  | cons a rest ih =>
      cases hv : getA values a.name with
      | some v =>
          rw [buildRowLoop_cons_supplied a rest values t row v hv, ih]
          constructor
          · intro hrest b hbm
            rcases List.mem_cons.mp hbm with hbeq | hbm
            · rw [hbeq]; simp [hv]
            · exact hrest b hbm
          · intro hall b hbm
            exact hall b (List.mem_cons_of_mem a hbm)
      | none =>
          by_cases hA : a.isAutoIncrement = true
          · rw [buildRowLoop_cons_auto a rest values t row hv hA, ih]
            constructor
            · intro hrest b hbm
              rcases List.mem_cons.mp hbm with hbeq | hbm
              · rw [hbeq]; simp [hA]
              · exact hrest b hbm
            · intro hall b hbm
              exact hall b (List.mem_cons_of_mem a hbm)
          · rw [Bool.not_eq_true] at hA
            by_cases hD : a.hasDefault = true
            · rw [buildRowLoop_cons_default a rest values t row hv hA hD, ih]
              constructor
              · intro hrest b hbm
                rcases List.mem_cons.mp hbm with hbeq | hbm
                · rw [hbeq]; simp [hD]
                · exact hrest b hbm
              · intro hall b hbm
                exact hall b (List.mem_cons_of_mem a hbm)
            · rw [Bool.not_eq_true] at hD
              by_cases hN : a.isNotNull = true
              · rw [buildRowLoop_cons_notnull a rest values t row hv hA hD hN]
                simp only [Option.some_ne_none, false_iff, not_forall]
                exact ⟨a, List.mem_cons_self a rest, not_not_intro ⟨hv, hA, hD, hN⟩⟩
              · rw [Bool.not_eq_true] at hN
                rw [buildRowLoop_cons_null a rest values t row hv hA hD hN, ih]
                constructor
                · intro hrest b hbm
                  rcases List.mem_cons.mp hbm with hbeq | hbm
                  · rw [hbeq]; simp [hN]
                  · exact hrest b hbm
                · intro hall b hbm
                  exact hall b (List.mem_cons_of_mem a hbm)

theorem buildRowLoop_err_some (s : List Attribute) (values : List (String × Val))
    (t : Table) (row : Entity) (e : DbError)
    (h : (buildRowLoop s values t row).2.2 = some e) :
    ∃ a ∈ s, e = .missingColumn a.name ∧ getA values a.name = none ∧
      a.isAutoIncrement = false ∧ a.hasDefault = false ∧ a.isNotNull = true := by
  induction s generalizing t row with
  | nil => simp [buildRowLoop] at h
  | cons a rest ih =>
      cases hv : getA values a.name with
      | some v =>
          rw [buildRowLoop_cons_supplied a rest values t row v hv] at h
          obtain ⟨b, hbm, hb⟩ := ih _ _ h
          exact ⟨b, List.mem_cons_of_mem a hbm, hb⟩
      | none =>
          by_cases hA : a.isAutoIncrement = true
          · rw [buildRowLoop_cons_auto a rest values t row hv hA] at h
            obtain ⟨b, hbm, hb⟩ := ih _ _ h
            exact ⟨b, List.mem_cons_of_mem a hbm, hb⟩
          · rw [Bool.not_eq_true] at hA
            by_cases hD : a.hasDefault = true
            · rw [buildRowLoop_cons_default a rest values t row hv hA hD] at h
              obtain ⟨b, hbm, hb⟩ := ih _ _ h
              exact ⟨b, List.mem_cons_of_mem a hbm, hb⟩
            · rw [Bool.not_eq_true] at hD
              by_cases hN : a.isNotNull = true
              · rw [buildRowLoop_cons_notnull a rest values t row hv hA hD hN] at h
                exact ⟨a, List.mem_cons_self a rest, (Option.some.inj h).symm,
                  hv, hA, hD, hN⟩
              · rw [Bool.not_eq_true] at hN
                rw [buildRowLoop_cons_null a rest values t row hv hA hD hN] at h
                obtain ⟨b, hbm, hb⟩ := ih _ _ h
                exact ⟨b, List.mem_cons_of_mem a hbm, hb⟩

theorem specInsertVal_isSome_iff (t : Table) (values : List (String × Val))
    (a : Attribute) :
    (specInsertVal t values a).isSome ↔
      ¬(getA values a.name = none ∧ a.isAutoIncrement = false ∧
        a.hasDefault = false ∧ a.isNotNull = true) := by
  unfold specInsertVal
  cases hv : getA values a.name <;>
    by_cases hA : a.isAutoIncrement = true <;>
    by_cases hD : a.hasDefault = true <;>
    by_cases hN : a.isNotNull = true <;>
    simp_all

theorem specInsertVal_congr (t t' : Table) (values : List (String × Val))
    (a : Attribute) (h : t.getCounter a.name = t'.getCounter a.name) :
    specInsertVal t values a = specInsertVal t' values a := by
  unfold specInsertVal
  rw [h]

theorem buildRowLoop_fields (s : List Attribute) (values : List (String × Val))
    (t : Table) (row : Entity) (hnd : (s.map (·.name)).Nodup)
    (h : (buildRowLoop s values t row).2.2 = none) :
    ∀ a ∈ s, getA (buildRowLoop s values t row).2.1 a.name =
      (specInsertVal t values a).map (fun v => (⟨a.type, v⟩ : Value)) := by
  induction s generalizing t row with
  | nil => intro a ha; cases ha
  | cons a rest ih =>
      simp only [List.map_cons, List.nodup_cons] at hnd
      obtain ⟨hnotin, hndr⟩ := hnd
      intro b hbm
      have hbne : ∀ b' : Attribute, b' ∈ rest → a.name ≠ b'.name := by
        intro b' hb' hcontra
        exact hnotin (hcontra ▸ List.mem_map_of_mem (·.name) hb')
      cases hv : getA values a.name with
      | some v =>
          rw [buildRowLoop_cons_supplied a rest values t row v hv] at h ⊢
          rcases List.mem_cons.mp hbm with hbeq | hbm
          · rw [hbeq]
            rw [buildRowLoop_field_stable rest values t _ a.name hnotin,
              getA_setA_self]
            simp [specInsertVal, hv]
          · exact ih _ _ hndr h b hbm
      | none =>
          by_cases hA : a.isAutoIncrement = true
          · rw [buildRowLoop_cons_auto a rest values t row hv hA] at h ⊢
            rcases List.mem_cons.mp hbm with hbeq | hbm
            · rw [hbeq]
              rw [buildRowLoop_field_stable rest values _ _ a.name hnotin,
                getA_setA_self]
              simp [specInsertVal, hv, hA]
            · rw [ih _ _ hndr h b hbm,
                specInsertVal_congr _ t values b
                  (getCounter_setCounter_ne t a.name b.name _ (hbne b hbm))]
          · rw [Bool.not_eq_true] at hA
            by_cases hD : a.hasDefault = true
            · rw [buildRowLoop_cons_default a rest values t row hv hA hD] at h ⊢
              rcases List.mem_cons.mp hbm with hbeq | hbm
              · rw [hbeq]
                rw [buildRowLoop_field_stable rest values t _ a.name hnotin,
                  getA_setA_self]
                simp [specInsertVal, hv, hA, hD]
              · exact ih _ _ hndr h b hbm
            · rw [Bool.not_eq_true] at hD
              by_cases hN : a.isNotNull = true
              · rw [buildRowLoop_cons_notnull a rest values t row hv hA hD hN] at h
                simp at h
              · rw [Bool.not_eq_true] at hN
                rw [buildRowLoop_cons_null a rest values t row hv hA hD hN] at h ⊢
                rcases List.mem_cons.mp hbm with hbeq | hbm
                · rw [hbeq]
                  rw [buildRowLoop_field_stable rest values t _ a.name hnotin,
                    getA_setA_self]
                  simp [specInsertVal, hv, hA, hD, hN]
                · exact ih _ _ hndr h b hbm

theorem buildRowLoop_counter_auto (s : List Attribute) (values : List (String × Val))
    (t : Table) (row : Entity) (hnd : (s.map (·.name)).Nodup)
    (h : (buildRowLoop s values t row).2.2 = none) :
    ∀ a ∈ s, a.isAutoIncrement = true → getA values a.name = none →
      (buildRowLoop s values t row).1.getCounter a.name =
        (if t.getCounter a.name = 0 then 1 else t.getCounter a.name) + 1 := by
  induction s generalizing t row with
  | nil => intro a ha; cases ha
  | cons a rest ih =>
      simp only [List.map_cons, List.nodup_cons] at hnd
      obtain ⟨hnotin, hndr⟩ := hnd
      intro b hbm hbA hbv
      have hbne : ∀ b' : Attribute, b' ∈ rest → a.name ≠ b'.name := by
        intro b' hb' hcontra
        exact hnotin (hcontra ▸ List.mem_map_of_mem (·.name) hb')
      cases hv : getA values a.name with
      | some v =>
          rw [buildRowLoop_cons_supplied a rest values t row v hv] at h ⊢
          rcases List.mem_cons.mp hbm with hbeq | hbm
          · rw [hbeq] at hbv
            rw [hbv] at hv
            cases hv
          · exact ih _ _ hndr h b hbm hbA hbv
      | none =>
          by_cases hA : a.isAutoIncrement = true
          · rw [buildRowLoop_cons_auto a rest values t row hv hA] at h ⊢
            rcases List.mem_cons.mp hbm with hbeq | hbm
            · rw [hbeq]
              rw [buildRowLoop_counter_stable rest values _ _ a.name hnotin,
                getCounter_setCounter_self]
            · rw [ih _ _ hndr h b hbm hbA hbv,
                getCounter_setCounter_ne t a.name b.name _ (hbne b hbm)]
          · rw [Bool.not_eq_true] at hA
            rcases List.mem_cons.mp hbm with hbeq | hbm
            · rw [hbeq] at hbA
              rw [hbA] at hA
              cases hA
            · by_cases hD : a.hasDefault = true
              · rw [buildRowLoop_cons_default a rest values t row hv hA hD] at h ⊢
                exact ih _ _ hndr h b hbm hbA hbv
              · rw [Bool.not_eq_true] at hD
                by_cases hN : a.isNotNull = true
                · rw [buildRowLoop_cons_notnull a rest values t row hv hA hD hN] at h
                  simp at h
                · rw [Bool.not_eq_true] at hN
                  rw [buildRowLoop_cons_null a rest values t row hv hA hD hN] at h ⊢
                  exact ih _ _ hndr h b hbm hbA hbv

theorem Insert_parts (t : Table) (values : List (String × Val)) :
    (Insert t values).1.schema = t.schema ∧ (Insert t values).1.name = t.name ∧
    ((∃ e, (Insert t values).2 = some e) → (Insert t values).1.rows = t.rows) ∧
    ((Insert t values).2 = none →
       (Insert t values).1.rows = t.rows ++ [(buildRow t values).2.1]) := by
  have hinv := buildRowLoop_table_inv t.schema values t []
  rcases hbr : buildRow t values with ⟨t', row, err⟩
  have hbr' : buildRowLoop t.schema values t [] = (t', row, err) := hbr
  rw [hbr'] at hinv
  obtain ⟨hs, hr, hn⟩ := hinv
  cases err with
  | some e =>
      simp only [Insert, hbr]
      exact ⟨hs, hn, fun _ => hr, fun hc => by cases hc⟩
  | none =>
      simp only [Insert, hbr]
      cases hpk : pkCheck t'.schema t'.rows row with
      | some e =>
          exact ⟨hs, hn, fun _ => hr, fun hc => by cases hc⟩
      | none =>
          refine ⟨hs, hn, ?_, ?_⟩
          · rintro ⟨e, he⟩
            cases he
          · intro
            simp only [hbr]
            rw [show t'.rows = t.rows from hr]

theorem findDup_none (key : String) (v : Val) (es : List Entity) :
    findDup key v es = none ↔ ∀ e ∈ es, ∃ w, getA e key = some w ∧ w.data ≠ v := by
  induction es with
  | nil => simp [findDup]
  | cons e rest ih =>
      cases hg : getA e key with
      | none => simp [findDup, hg]
      | some w =>
          by_cases hw : w.data = v
          · simp [findDup, hg, hw]
          · simp [findDup, hg, hw, ih]

theorem findDup_some_form (key : String) (v : Val) (es : List Entity) (e : DbError)
    (h : findDup key v es = some e) :
    e = .mapAtFailure key ∨ e = .duplicatePrimaryKey key := by
  induction es with
  | nil => simp [findDup] at h
  | cons x rest ih =>
      cases hg : getA x key with
      | none =>
          rw [findDup, hg] at h
          exact Or.inl (Option.some.inj h).symm
      | some w =>
          by_cases hw : w.data = v
          · rw [findDup, hg] at h
            simp only [hw, if_true] at h
            exact Or.inr (Option.some.inj h).symm
          · rw [findDup, hg] at h
            simp only [hw, if_false] at h
            exact ih h

theorem findDup_some_cov (key : String) (v : Val) (es : List Entity) (e : DbError)
    (hcov : ∀ x ∈ es, (getA x key).isSome)
    (h : findDup key v es = some e) :
    e = .duplicatePrimaryKey key ∧ ∃ x ∈ es, ∃ w, getA x key = some w ∧ w.data = v := by
  induction es with
  | nil => simp [findDup] at h
  | cons x rest ih =>
      cases hg : getA x key with
      | none =>
          have := hcov x (List.mem_cons_self x rest)
          rw [hg] at this
          cases this
      | some w =>
          by_cases hw : w.data = v
          · rw [findDup, hg] at h
            simp only [hw, if_true] at h
            exact ⟨(Option.some.inj h).symm, x, List.mem_cons_self x rest, w, hg, hw⟩
          · rw [findDup, hg] at h
            simp only [hw, if_false] at h
            obtain ⟨he, y, hy, w', hw'⟩ :=
              ih (fun z hz => hcov z (List.mem_cons_of_mem x hz)) h
            exact ⟨he, y, List.mem_cons_of_mem x hy, w', hw'⟩

theorem findDup_dup_collision (key : String) (v : Val) (es : List Entity)
    (h : findDup key v es = some (.duplicatePrimaryKey key)) :
    ∃ x ∈ es, ∃ w, getA x key = some w ∧ w.data = v := by
  induction es with
  | nil => simp [findDup] at h
  | cons x rest ih =>
      cases hg : getA x key with
      | none =>
          rw [findDup, hg] at h
          cases Option.some.inj h
      | some w =>
          by_cases hw : w.data = v
          · exact ⟨x, List.mem_cons_self x rest, w, hg, hw⟩
          · rw [findDup, hg] at h
            simp only [hw, if_false] at h
            obtain ⟨y, hy, w', hw'⟩ := ih h
            exact ⟨y, List.mem_cons_of_mem x hy, w', hw'⟩

theorem pkCollision_cons (a : Attribute) (rest : List Attribute)
    (rows : List Entity) (row : Entity) :
    pkCollision (a :: rest) rows row ↔
      (a.isPrimaryKey = true ∧
        ∃ e ∈ rows, ∃ w w', getA e a.name = some w ∧ getA row a.name = some w' ∧
          w.data = w'.data)
      ∨ pkCollision rest rows row := by
  unfold pkCollision
  rw [List.exists_mem_cons_iff]

theorem pkCheck_cons_notpk (a : Attribute) (rest : List Attribute)
    (rows : List Entity) (row : Entity) (hP : a.isPrimaryKey = false) :
    pkCheck (a :: rest) rows row = pkCheck rest rows row := by
  simp [pkCheck, hP]

theorem pkCheck_cons_pk_none (a : Attribute) (rest : List Attribute)
    (rows : List Entity) (row : Entity) (hP : a.isPrimaryKey = true)
    (hg : getA row a.name = none) :
    pkCheck (a :: rest) rows row = some (.mapAtFailure a.name) := by
  simp [pkCheck, hP, hg]

theorem pkCheck_cons_pk_some (a : Attribute) (rest : List Attribute)
    (rows : List Entity) (row : Entity) (w : Value) (hP : a.isPrimaryKey = true)
    (hg : getA row a.name = some w) :
    pkCheck (a :: rest) rows row =
      (match findDup a.name w.data rows with
       | some e => some e
       | none => pkCheck rest rows row) := by
  simp [pkCheck, hP, hg]

theorem pkCheck_none_iff (s : List Attribute) (rows : List Entity) (row : Entity)
    (hrow : ∀ a ∈ s, a.isPrimaryKey = true → (getA row a.name).isSome)
    (hrows : ∀ a ∈ s, a.isPrimaryKey = true → ∀ e ∈ rows, (getA e a.name).isSome) :
    pkCheck s rows row = none ↔ ¬ pkCollision s rows row := by
  induction s with
  | nil =>
      simp [pkCheck, pkCollision]
  | cons a rest ih =>
      have ihh := ih (fun b hb hP => hrow b (List.mem_cons_of_mem a hb) hP)
        (fun b hb hP => hrows b (List.mem_cons_of_mem a hb) hP)
      rw [pkCollision_cons]
      by_cases hP : a.isPrimaryKey = true
      · obtain ⟨w', hw'⟩ :=
          Option.isSome_iff_exists.mp (hrow a (List.mem_cons_self a rest) hP)
        rw [pkCheck_cons_pk_some a rest rows row w' hP hw']
        cases hf : findDup a.name w'.data rows with
        | some e =>
            simp only [hf]
            constructor
            · intro hc
              cases hc
            · intro hnc
              exfalso
              apply hnc
              obtain ⟨_, x, hx, w, hwx, hwd⟩ := findDup_some_cov a.name w'.data rows e
                (hrows a (List.mem_cons_self a rest) hP) hf
              exact Or.inl ⟨hP, x, hx, w, w', hwx, hw', hwd⟩
        | none =>
            simp only [hf]
            rw [ihh]
            constructor
            · intro hnr hcol
              rcases hcol with ⟨_, x, hx, w, w'', hg1, hg2, hd⟩ | hcol
              · rw [hw'] at hg2
                obtain ⟨wz, hz1, hz2⟩ := (findDup_none a.name w'.data rows).mp hf x hx
                rw [hg1] at hz1
                rw [← Option.some.inj hz1] at hz2
                rw [← Option.some.inj hg2] at hd
                exact hz2 hd
              · exact hnr hcol
            · intro hn hc
              exact hn (Or.inr hc)
      · rw [Bool.not_eq_true] at hP
        rw [pkCheck_cons_notpk a rest rows row hP, ihh]
        simp [hP]

theorem pkCheck_some_form (s : List Attribute) (rows : List Entity) (row : Entity)
    (e : DbError) (h : pkCheck s rows row = some e) :
    ∃ a ∈ s, a.isPrimaryKey = true ∧
      (e = .duplicatePrimaryKey a.name ∨ e = .mapAtFailure a.name) := by
  induction s with
  | nil => simp [pkCheck] at h
  | cons a rest ih =>
      by_cases hP : a.isPrimaryKey = true
      · cases hg : getA row a.name with
        | none =>
            rw [pkCheck_cons_pk_none a rest rows row hP hg] at h
            exact ⟨a, List.mem_cons_self a rest, hP, Or.inr (Option.some.inj h).symm⟩
        | some w =>
            rw [pkCheck_cons_pk_some a rest rows row w hP hg] at h
            cases hf : findDup a.name w.data rows with
            | some e' =>
                simp only [hf] at h
                rcases findDup_some_form a.name w.data rows e' hf with hm | hd
                · exact ⟨a, List.mem_cons_self a rest, hP,
                    Or.inr ((Option.some.inj h) ▸ hm)⟩
                · exact ⟨a, List.mem_cons_self a rest, hP,
                    Or.inl ((Option.some.inj h) ▸ hd)⟩
            | none =>
                simp only [hf] at h
                obtain ⟨b, hb, hbP, hbe⟩ := ih h
                exact ⟨b, List.mem_cons_of_mem a hb, hbP, hbe⟩
      · rw [Bool.not_eq_true] at hP
        rw [pkCheck_cons_notpk a rest rows row hP] at h
        obtain ⟨b, hb, hbP, hbe⟩ := ih h
        exact ⟨b, List.mem_cons_of_mem a hb, hbP, hbe⟩

theorem pkCheck_dup_collision (s : List Attribute) (rows : List Entity)
    (row : Entity) (c : String)
    (h : pkCheck s rows row = some (.duplicatePrimaryKey c)) :
    pkCollision s rows row := by
  induction s with
  | nil => simp [pkCheck] at h
  | cons a rest ih =>
      rw [pkCollision_cons]
      by_cases hP : a.isPrimaryKey = true
      · cases hg : getA row a.name with
        | none =>
            rw [pkCheck_cons_pk_none a rest rows row hP hg] at h
            cases Option.some.inj h
        | some w =>
            rw [pkCheck_cons_pk_some a rest rows row w hP hg] at h
            cases hf : findDup a.name w.data rows with
            | some e' =>
                simp only [hf] at h
                rcases findDup_some_form a.name w.data rows e' hf with hm | hd
                · rw [Option.some.inj h] at hm
                  cases hm
                · rw [hd] at hf
                  obtain ⟨x, hx, wx, hgx, hdx⟩ :=
                    findDup_dup_collision a.name w.data rows hf
                  exact Or.inl ⟨hP, x, hx, wx, w, hgx, rfl, hdx⟩
            | none =>
                simp only [hf] at h
                exact Or.inr (ih h)
      · rw [Bool.not_eq_true] at hP
        rw [pkCheck_cons_notpk a rest rows row hP] at h
        exact Or.inr (ih h)

theorem pkCheck_none_nodup (s : List Attribute) (rows : List Entity) (row : Entity)
    (a : Attribute) (ha : a ∈ s) (hP : a.isPrimaryKey = true)
    (h : pkCheck s rows row = none) :
    ∃ w', getA row a.name = some w' ∧
      ∀ e ∈ rows, ∃ w, getA e a.name = some w ∧ w.data ≠ w'.data := by
  induction s with
  | nil => cases ha
  | cons b rest ih =>
      by_cases hbP : b.isPrimaryKey = true
      · cases hg : getA row b.name with
        | none =>
            rw [pkCheck_cons_pk_none b rest rows row hbP hg] at h
            cases h
        | some w =>
            rw [pkCheck_cons_pk_some b rest rows row w hbP hg] at h
            cases hf : findDup b.name w.data rows with
            | some e =>
                simp only [hf] at h
                cases h
            | none =>
                simp only [hf] at h
                rcases List.mem_cons.mp ha with hae | har
                · subst hae
                  exact ⟨w, hg, (findDup_none _ w.data rows).mp hf⟩
                · exact ih har h
      · rw [Bool.not_eq_true] at hbP
        rw [pkCheck_cons_notpk b rest rows row hbP] at h
        rcases List.mem_cons.mp ha with hae | har
        · rw [hae] at hP
          rw [hP] at hbP
          cases hbP
        · exact ih har h

theorem Insert_eq_build_err (t : Table) (values : List (String × Val))
    (t' : Table) (row : Entity) (e : DbError)
    (hb : buildRow t values = (t', row, some e)) :
    Insert t values = (t', some e) := by
  simp [Insert, hb]

theorem Insert_eq_pk_err (t : Table) (values : List (String × Val))
    (t' : Table) (row : Entity) (e : DbError)
    (hb : buildRow t values = (t', row, none))
    (hpk : pkCheck t'.schema t'.rows row = some e) :
    Insert t values = (t', some e) := by
  simp [Insert, hb, hpk]

theorem Insert_eq_ok (t : Table) (values : List (String × Val))
    (t' : Table) (row : Entity)
    (hb : buildRow t values = (t', row, none))
    (hpk : pkCheck t'.schema t'.rows row = none) :
    Insert t values = ({ t' with rows := t'.rows ++ [row] }, none) := by
  simp [Insert, hb, hpk]

theorem pkCheck_some_cov (s : List Attribute) (rows : List Entity) (row : Entity)
    (e : DbError)
    (hrow : ∀ a ∈ s, a.isPrimaryKey = true → (getA row a.name).isSome)
    (hrows : ∀ a ∈ s, a.isPrimaryKey = true → ∀ x ∈ rows, (getA x a.name).isSome)
    (h : pkCheck s rows row = some e) :
    ∃ a ∈ s, a.isPrimaryKey = true ∧ e = .duplicatePrimaryKey a.name := by
  induction s with
  | nil => simp [pkCheck] at h
  | cons a rest ih =>
      by_cases hP : a.isPrimaryKey = true
      · cases hg : getA row a.name with
        | none =>
            have := hrow a (List.mem_cons_self a rest) hP
            rw [hg] at this
            cases this
        | some w =>
            rw [pkCheck_cons_pk_some a rest rows row w hP hg] at h
            cases hf : findDup a.name w.data rows with
            | some e' =>
                simp only [hf] at h
                obtain ⟨he', _⟩ := findDup_some_cov a.name w.data rows e'
                  (hrows a (List.mem_cons_self a rest) hP) hf
                exact ⟨a, List.mem_cons_self a rest, hP, (Option.some.inj h) ▸ he'⟩
            | none =>
                simp only [hf] at h
                obtain ⟨b, hb, hbP, hbe⟩ := ih
                  (fun b hb hbp => hrow b (List.mem_cons_of_mem a hb) hbp)
                  (fun b hb hbp => hrows b (List.mem_cons_of_mem a hb) hbp) h
                exact ⟨b, List.mem_cons_of_mem a hb, hbP, hbe⟩
      · rw [Bool.not_eq_true] at hP
        rw [pkCheck_cons_notpk a rest rows row hP] at h
        obtain ⟨b, hb, hbP, hbe⟩ := ih
          (fun b hb hbp => hrow b (List.mem_cons_of_mem a hb) hbp)
          (fun b hb hbp => hrows b (List.mem_cons_of_mem a hb) hbp) h
        exact ⟨b, List.mem_cons_of_mem a hb, hbP, hbe⟩

theorem selectLoop_filter (column : String) (v : Val) (rows : List Entity)
    (hcov : ∀ r ∈ rows, (getA r column).isSome) :
    selectLoop column v rows = .ok (rows.filter (rowMatches column v)) := by
  induction rows with
  | nil => rfl
  | cons r rest ih =>
      obtain ⟨w, hw⟩ :=
        Option.isSome_iff_exists.mp (hcov r (List.mem_cons_self r rest))
      have ihr := ih (fun x hx => hcov x (List.mem_cons_of_mem r hx))
      by_cases hm : w.data = v
      · simp [selectLoop, hw, hm, ihr, Except.map, List.filter_cons, rowMatches]
      · simp [selectLoop, hw, hm, ihr, Except.map, List.filter_cons, rowMatches]

theorem selectLoop_err_form (column : String) (v : Val) (rows : List Entity)
    (e : DbError) (h : selectLoop column v rows = .error e) :
    e = .mapAtFailure column := by
  induction rows with
  | nil => cases h
  | cons r rest ih =>
      cases hw : getA r column with
      | none =>
          rw [selectLoop, hw] at h
          cases h
          rfl
      | some w =>
          rw [selectLoop, hw] at h
          by_cases hm : w.data = v
          · simp only [hm, if_true] at h
            cases hsel : selectLoop column v rest with
            | ok l => rw [hsel] at h; cases h
            | error e' =>
                rw [hsel] at h
                cases h
                exact ih hsel
          · simp only [hm, if_false] at h
            exact ih h

theorem setA_keys_of_mem {α : Type} (l : List (String × α)) (n : String)
    (x v : α) (h : getA l n = some x) :
    (setA l n v).map Prod.fst = l.map Prod.fst := by
  induction l with
  | nil => cases h
  | cons kv rest ih =>
      obtain ⟨k, w⟩ := kv
      by_cases hk : k = n
      · subst hk
        simp [setA]
      · rw [getA] at h
        simp only [hk, if_false] at h
        simp [setA, hk, ih h]

theorem exec_dispatch_insert (db : Database) (q : String)
    (h : (Tokenize q).head? = some "INSERT") :
    ExecuteQuery db q = insertBranch db q.toList (Tokenize q) := by
  simp [ExecuteQuery, h]

theorem exec_dispatch_select (db : Database) (q : String)
    (h : (Tokenize q).head? = some "SELECT") :
    ExecuteQuery db q = selectBranch db (Tokenize q) := by
  simp [ExecuteQuery, h]

theorem exec_dispatch_create (db : Database) (q : String)
    (h : (Tokenize q).head? = some "CREATE") :
    ExecuteQuery db q = createBranch db q.toList (Tokenize q) := by
  simp [ExecuteQuery, h]

/-! ### Witness fixtures -/

/-- A table with one column of each qualifier kind (auto-increment primary
key, not-null, default, plain). -/
def tableC2 : Table :=
  ⟨"t", [{ name := "id", type := .INT, isPrimaryKey := true, isAutoIncrement := true },
         { name := "name", type := .TEXT, isNotNull := true },
         { name := "note", type := .TEXT, hasDefault := true, defaultValue := .str "x" },
         { name := "extra", type := .TEXT }], [], [("id", 1)]⟩

/-- A table whose single column is an auto-increment primary key. -/
def tableC10 : Table :=
  ⟨"t", [{ name := "id", type := .INT, isPrimaryKey := true, isAutoIncrement := true }],
   [], [("id", 1)]⟩

/-- A table with a primary-key column and one existing row. -/
def tableC3 : Table :=
  ⟨"t", [{ name := "id", type := .INT, isPrimaryKey := true }],
   [[("id", ⟨.INT, .int 1⟩)]], []⟩

/-- The candidate row built for the C3 witness payload. -/
def rowC3 : Entity := [("id", ⟨.INT, .int 1⟩)]

/-! ### Claim theorems -/

/-- C2: for every table and insert payload, `Insert` fills the candidate row
by visiting each declared column in declaration order and applying exactly
this precedence: a caller-supplied value is used verbatim; otherwise an
auto-increment column receives the table's counter (starting at 1,
incremented after use, per table per column); otherwise a declared default;
otherwise a not-null column makes the insert fail with
`MissingRequiredColumn` (`missingColumn`); otherwise an explicit null.
`specInsertVal` transcribes the claimed precedence; the conjuncts check the
code's candidate row, counter updates and failure behaviour against it. -/
theorem claim_C2_insert_precedence (t : Table) (values : List (String × Val))
    (hnd : (t.schema.map (·.name)).Nodup) :
    (((buildRow t values).2.2 = none) ↔
        ∀ a ∈ t.schema, (specInsertVal t values a).isSome) ∧
    ((buildRow t values).2.2 = none →
       ∀ a ∈ t.schema,
         getA (buildRow t values).2.1 a.name
           = (specInsertVal t values a).map (fun v => (⟨a.type, v⟩ : Value))) ∧
    ((buildRow t values).2.2 = none →
       ∀ a ∈ t.schema, a.isAutoIncrement = true → getA values a.name = none →
         (buildRow t values).1.getCounter a.name
           = (if t.getCounter a.name = 0 then 1 else t.getCounter a.name) + 1) ∧
    (∀ e, (buildRow t values).2.2 = some e →
       (∃ a ∈ t.schema, e = .missingColumn a.name ∧ specInsertVal t values a = none) ∧
       (Insert t values).2 = some e) := by
  refine ⟨?_, ?_, ?_, ?_⟩
  · refine Iff.trans (buildRowLoop_err_none_iff t.schema values t []) ?_
    exact forall₂_congr fun a ha => (specInsertVal_isSome_iff t values a).symm
  · exact buildRowLoop_fields t.schema values t [] hnd
  · exact buildRowLoop_counter_auto t.schema values t [] hnd
  · intro e he
    obtain ⟨a, ha, hea, hv, hA, hD, hN⟩ :=
      buildRowLoop_err_some t.schema values t [] e he
    refine ⟨⟨a, ha, hea, by simp [specInsertVal, hv, hA, hD, hN]⟩, ?_⟩
    rcases hbr : buildRow t values with ⟨t', row, err⟩
    have herr : err = some e := by rw [hbr] at he; exact he
    rw [herr] at hbr
    rw [Insert_eq_build_err t values t' row e hbr]

/-- Witness for C2 at a concrete table and payload that exercises every
branch of the precedence. -/
theorem claim_C2_witness :
    (((buildRow tableC2 [("name", Val.str "a")]).2.2 = none) ↔
        ∀ a ∈ tableC2.schema,
          (specInsertVal tableC2 [("name", Val.str "a")] a).isSome) ∧
    ((buildRow tableC2 [("name", Val.str "a")]).2.2 = none →
       ∀ a ∈ tableC2.schema,
         getA (buildRow tableC2 [("name", Val.str "a")]).2.1 a.name
           = (specInsertVal tableC2 [("name", Val.str "a")] a).map
               (fun v => (⟨a.type, v⟩ : Value))) ∧
    ((buildRow tableC2 [("name", Val.str "a")]).2.2 = none →
       ∀ a ∈ tableC2.schema, a.isAutoIncrement = true →
         getA [("name", Val.str "a")] a.name = none →
         (buildRow tableC2 [("name", Val.str "a")]).1.getCounter a.name
           = (if tableC2.getCounter a.name = 0 then 1
              else tableC2.getCounter a.name) + 1) ∧
    (∀ e, (buildRow tableC2 [("name", Val.str "a")]).2.2 = some e →
       (∃ a ∈ tableC2.schema, e = .missingColumn a.name ∧
          specInsertVal tableC2 [("name", Val.str "a")] a = none) ∧
       (Insert tableC2 [("name", Val.str "a")]).2 = some e) :=
  claim_C2_insert_precedence tableC2 [("name", Val.str "a")] (by decide)

/-- C10: explicitly supplying a value for an auto-increment column leaves
that column's counter unchanged (first conjunct, for every table, payload
and column); concretely, after `INSERT {id:1}` into a table whose `id` is
an auto-increment primary key, the counter still reads 1, so the next
insert that omits `id` is assigned the value 1 and fails with
`DuplicatePrimaryKey` (remaining conjuncts). -/
theorem claim_C10_explicit_auto :
    (∀ (t : Table) (values : List (String × Val)) (c : String),
       (getA values c).isSome → (Insert t values).1.getCounter c = t.getCounter c) ∧
    ((Insert tableC10 [("id", Val.int 1)]).2 = none ∧
     (Insert tableC10 [("id", Val.int 1)]).1.getCounter "id" = 1 ∧
     getA (buildRow (Insert tableC10 [("id", Val.int 1)]).1 []).2.1 "id"
       = some ⟨.INT, .int 1⟩ ∧
     (Insert (Insert tableC10 [("id", Val.int 1)]).1 []).2
       = some (.duplicatePrimaryKey "id")) := by
  constructor
  · intro t values c hc
    rcases hbr : buildRow t values with ⟨t', row, err⟩
    have hco : t'.getCounter c = t.getCounter c := by
      have hh := buildRowLoop_counter_supplied t.schema values t [] c hc
      rw [show buildRowLoop t.schema values t [] = (t', row, err) from hbr] at hh
      exact hh
    cases err with
    | some e =>
        rw [Insert_eq_build_err t values t' row e hbr]
        exact hco
    | none =>
        cases hpk : pkCheck t'.schema t'.rows row with
        | some e =>
            rw [Insert_eq_pk_err t values t' row e hbr hpk]
            exact hco
        | none =>
            rw [Insert_eq_ok t values t' row hbr hpk]
            exact hco
  · exact ⟨by decide, by decide, by decide, by decide⟩

/-- Witness for C10's universally quantified conjunct at a concrete input. -/
theorem claim_C10_witness :
    (Insert tableC10 [("id", Val.int 1)]).1.getCounter "id"
      = tableC10.getCounter "id" :=
  claim_C10_explicit_auto.1 tableC10 [("id", Val.int 1)] "id" (by decide)

/-- C3: once the candidate row is built, a primary-key value structurally
equal to an existing row's value makes the insert fail with
`DuplicatePrimaryKey` and leaves the rows unchanged; an insert whose
primary-key values collide with no existing row never raises this error. -/
theorem claim_C3_duplicate_pk (t : Table) (values : List (String × Val))
    (t' : Table) (row : Entity)
    (hb : buildRow t values = (t', row, none))
    (hrows : ∀ a ∈ t.schema, a.isPrimaryKey = true →
       ∀ e ∈ t.rows, (getA e a.name).isSome) :
    (pkCollision t.schema t.rows row →
       (∃ c, (Insert t values).2 = some (.duplicatePrimaryKey c)) ∧
       (Insert t values).1.rows = t.rows) ∧
    (¬ pkCollision t.schema t.rows row →
       ∀ c, (Insert t values).2 ≠ some (.duplicatePrimaryKey c)) := by
  have hinv := buildRowLoop_table_inv t.schema values t []
  rw [show buildRowLoop t.schema values t [] = (t', row, none) from hb] at hinv
  obtain ⟨hs, hr, _⟩ := hinv
  have hrowcov : ∀ a ∈ t.schema, a.isPrimaryKey = true → (getA row a.name).isSome := by
    intro a ha _
    have hcv := buildRowLoop_covers t.schema values t []
      (by rw [show buildRowLoop t.schema values t [] = (t', row, none) from hb]) a ha
    rw [show buildRowLoop t.schema values t [] = (t', row, none) from hb] at hcv
    exact hcv
  constructor
  · intro hcol
    cases hpk : pkCheck t'.schema t'.rows row with
    | none =>
        exfalso
        rw [hs, hr] at hpk
        exact (pkCheck_none_iff t.schema t.rows row hrowcov hrows).mp hpk hcol
    | some e =>
        have hpk' : pkCheck t.schema t.rows row = some e := by rw [← hs, ← hr]; exact hpk
        obtain ⟨a, ha, haP, hae⟩ :=
          pkCheck_some_cov t.schema t.rows row e hrowcov hrows hpk'
        rw [Insert_eq_pk_err t values t' row e hb hpk]
        exact ⟨⟨a.name, by rw [hae]⟩, hr⟩
  · intro hncol c hcontra
    cases hpk : pkCheck t'.schema t'.rows row with
    | none =>
        rw [Insert_eq_ok t values t' row hb hpk] at hcontra
        cases hcontra
    | some e =>
        rw [Insert_eq_pk_err t values t' row e hb hpk] at hcontra
        have he : e = .duplicatePrimaryKey c := Option.some.inj hcontra
        rw [he] at hpk
        rw [hs, hr] at hpk
        exact hncol (pkCheck_dup_collision t.schema t.rows row c hpk)

/-- Witness for C3: a concrete duplicate insert fails with
`DuplicatePrimaryKey` and leaves the row list unchanged. -/
theorem claim_C3_witness :
    (∃ c, (Insert tableC3 [("id", Val.int 1)]).2 = some (.duplicatePrimaryKey c)) ∧
    (Insert tableC3 [("id", Val.int 1)]).1.rows = tableC3.rows :=
  (claim_C3_duplicate_pk tableC3 [("id", Val.int 1)] tableC3 rowC3
    (by decide) (by decide)).1
    ⟨{ name := "id", type := .INT, isPrimaryKey := true }, by decide, by decide,
     [("id", ⟨.INT, .int 1⟩)], by decide, ⟨.INT, .int 1⟩, ⟨.INT, .int 1⟩,
     by decide, by decide, by decide⟩

theorem parseSelectValue_err_form (vtok : String) (e : DbError)
    (h : parseSelectValue vtok = .error e) : e = .jsonParseError := by
  unfold parseSelectValue at h
  split at h
  · cases h
  · split at h
    · cases h
    · exact (Except.error.inj h).symm

/-- A table with two rows for the SELECT claims. -/
def tableC4 : Table :=
  ⟨"t", [{ name := "id", type := .INT, isPrimaryKey := true }],
   [[("id", ⟨.INT, .int 1⟩)], [("id", ⟨.INT, .int 2⟩)]], []⟩

/-- A database holding `tableC4`. -/
def dbC4 : Database := ⟨"db", [("t", tableC4)], "", ""⟩

/-- C4: `SELECT t WHERE col = v` returns exactly the rows whose value under
`col` is structurally equal to `v`, in the table's insertion order (the
filter of the row list), and `SELECT t` with no predicate returns all rows
in insertion order; the engine-level conjuncts connect both statement forms
to `Select` and the row list. -/
theorem claim_C4_select_semantics :
    (∀ (t : Table) (column : String) (v : Val),
       (∀ r ∈ t.rows, (getA r column).isSome) →
       Select t column v = .ok (t.rows.filter (rowMatches column v))) ∧
    (∀ (db : Database) (q : String) (tname : String) (tb : Table),
       Tokenize q = ["SELECT", tname] → getA db.tables tname = some tb →
       ExecuteQuery db q = (db, .ok ⟨true, tb.rows⟩)) ∧
    (∀ (db : Database) (q : String) (tname col vtok : String) (tb : Table) (w : Val),
       Tokenize q = ["SELECT", tname, "WHERE", col, "=", vtok] →
       getA db.tables tname = some tb →
       parseSelectValue vtok = .ok w →
       ExecuteQuery db q
         = (db, (Select tb col w).map (fun rows => ({ hasResult := true, rows := rows } : QueryResult)))) := by
  refine ⟨?_, ?_, ?_⟩
  · intro t column v hcov
    exact selectLoop_filter column v t.rows hcov
  · intro db q tname tb htoks htb
    rw [exec_dispatch_select db q (by rw [htoks]; rfl), htoks]
    simp [selectBranch, htb]
  · intro db q tname col vtok tb w htoks htb hw
    rw [exec_dispatch_select db q (by rw [htoks]; rfl), htoks]
    cases hsel : Select tb col w with
    | error e => simp [selectBranch, htb, hw, hsel, Except.map]
    | ok rows => simp [selectBranch, htb, hw, hsel, Except.map]

/-- Witness for C4 at a concrete table, database and statements. -/
theorem claim_C4_witness :
    Select tableC4 "id" (.int 1)
      = .ok (tableC4.rows.filter (rowMatches "id" (.int 1))) ∧
    ExecuteQuery dbC4 "SELECT t" = (dbC4, .ok ⟨true, tableC4.rows⟩) ∧
    ExecuteQuery dbC4 "SELECT t WHERE id = 1"
      = (dbC4, (Select tableC4 "id" (.int 1)).map
          (fun rows => ({ hasResult := true, rows := rows } : QueryResult))) :=
  ⟨claim_C4_select_semantics.1 tableC4 "id" (.int 1) (by decide),
   claim_C4_select_semantics.2.1 dbC4 "SELECT t" "t" tableC4 (by decide) (by decide),
   claim_C4_select_semantics.2.2 dbC4 "SELECT t WHERE id = 1" "t" "id" "1"
     tableC4 (.int 1) (by decide) (by decide) (by decide)⟩

/-- C8: a SELECT statement with more than two tokens, over an existing
table, fails with `InvalidSyntax` (`invalidSelectSyntax`) exactly when the
token shape is not the single recognized predicate form: at least six
tokens with the literal `WHERE` at position 2 and `=` at position 4. -/
theorem claim_C8_select_shape (db : Database) (q : String) (toks : List String)
    (htoks : Tokenize q = toks) (hhead : toks.head? = some "SELECT")
    (hlen : 2 < toks.length)
    (htb : (getA db.tables ((toks.get? 1).getD "")).isSome) :
    (ExecuteQuery db q).2 = .error .invalidSelectSyntax ↔
      ¬(6 ≤ toks.length ∧ toks.get? 2 = some "WHERE" ∧ toks.get? 4 = some "=") := by
  rw [exec_dispatch_select db q (by rw [htoks]; exact hhead), htoks]
  obtain ⟨tb, htb'⟩ := Option.isSome_iff_exists.mp htb
  simp only [selectBranch]
  rw [if_neg (by omega), htb']
  simp only []
  rw [if_neg (by omega)]
  by_cases hshape : 6 ≤ toks.length ∧ toks.get? 2 = some "WHERE" ∧ toks.get? 4 = some "="
  · rw [if_pos hshape]
    simp only [hshape, not_true, iff_false]
    cases hpv : parseSelectValue ((toks.get? 5).getD "") with
    | error e =>
        have he := parseSelectValue_err_form _ e hpv
        simp [hpv, he]
    | ok w =>
        cases hsel : Select tb ((toks.get? 3).getD "") w with
        | error e =>
            have he := selectLoop_err_form ((toks.get? 3).getD "") w tb.rows e hsel
            rw [List.get?_eq_getElem?] at hsel
            simp [hpv, hsel, he]
        | ok rows =>
            rw [List.get?_eq_getElem?] at hsel
            simp [hpv, hsel]
  · rw [if_neg hshape]
    exact iff_of_true rfl hshape

/-- Witness for C8: a well-shaped six-token SELECT is not an
`InvalidSyntax` failure, per the theorem's iff at a concrete statement. -/
theorem claim_C8_witness :
    (ExecuteQuery dbC4 "SELECT t WHERE id = 1").2 = .error .invalidSelectSyntax ↔
      ¬(6 ≤ (["SELECT", "t", "WHERE", "id", "=", "1"] : List String).length ∧
        (["SELECT", "t", "WHERE", "id", "=", "1"] : List String).get? 2 = some "WHERE" ∧
        (["SELECT", "t", "WHERE", "id", "=", "1"] : List String).get? 4 = some "=") :=
  claim_C8_select_shape dbC4 "SELECT t WHERE id = 1"
    ["SELECT", "t", "WHERE", "id", "=", "1"]
    (by decide) (by decide) (by decide) (by decide)

/-- C9 (code bug at database.hpp:376): the DEFAULT extraction locates the
keyword with `find_first_of("DEFAULT")` — the first occurrence of ANY of
the characters D,E,F,A,U,L,T — instead of `find("DEFAULT")`.  Whenever a
modifier containing one of those letters (NOT NULL, PRIMARY KEY,
AUTO_INCREMENT) precedes `DEFAULT`, the stored default is a token read
from the wrong offset rather than the value following the keyword; with no
preceding modifier the extraction matches the claim (third and fourth
conjuncts).  The last conjunct shows the corrupted schema a full CREATE
statement produces. -/
theorem claim_C9_default_bug :
    parseColDef "name TEXT NOT NULL DEFAULT \"Bob\"".toList
      = .ok { name := "name", type := .TEXT, isNotNull := true,
              hasDefault := true, defaultValue := .str "DEFAULT" } ∧
    parseColDef "n INT AUTO_INCREMENT DEFAULT 5".toList
      = .ok { name := "n", type := .INT, isAutoIncrement := true,
              hasDefault := true, defaultValue := .str "CREMENT" } ∧
    parseColDef "name TEXT DEFAULT \"Bob\"".toList
      = .ok { name := "name", type := .TEXT, hasDefault := true,
              defaultValue := .str "Bob" } ∧
    parseColDef "n INT DEFAULT 5".toList
      = .ok { name := "n", type := .INT, hasDefault := true,
              defaultValue := .int 5 } ∧
    (getA (ExecuteQuery (emptyDb "db")
        "CREATE TABLE t (name TEXT NOT NULL DEFAULT \"Bob\")").1.tables "t").map
        (fun tb => tb.schema.map (fun a => (a.name, a.hasDefault, a.defaultValue)))
      = some [("name", true, .str "DEFAULT")] :=
  ⟨by decide, by decide, by decide, by decide, by decide⟩

/-- A table with an auto-increment column and a not-null column, plus the
database holding it, for the C1 counterexample. -/
def tableC1 : Table :=
  ⟨"t", [{ name := "a", type := .INT, isAutoIncrement := true },
         { name := "b", type := .INT, isNotNull := true }], [], [("a", 1)]⟩

/-- Database for the C1 counterexample. -/
def dbC1 : Database := ⟨"db", [("t", tableC1)], "", ""⟩

/-- C1 counterexample: a failing `INSERT t {}` (missing required column
`b`) leaves the auto-increment counter of `a` advanced from 1 to 2, and a
failing `CREATE TABLE u (x INT, y BLOB)` (unknown type) leaves a table `u`
in the database — the post-failure database does not equal the
pre-statement state. -/
theorem claim_C1_counterexample :
    (ExecuteQuery dbC1 "INSERT t {}").2 = .error (.missingColumn "b") ∧
    tableC1.getCounter "a" = 1 ∧
    (getA (ExecuteQuery dbC1 "INSERT t {}").1.tables "t").map (·.getCounter "a")
      = some 2 ∧
    (ExecuteQuery (emptyDb "db") "CREATE TABLE u (x INT, y BLOB)").2
      = .error (.unknownType "BLOB") ∧
    getA (emptyDb "db").tables "u" = none ∧
    (getA (ExecuteQuery (emptyDb "db") "CREATE TABLE u (x INT, y BLOB)").1.tables
        "u").isSome = true :=
  ⟨by decide, by decide, by decide, by decide, by decide, by decide⟩

theorem insertBranch_failure_state (db db' : Database) (qc : List Char)
    (toks : List String) (e : DbError)
    (hrun : insertBranch db qc toks = (db', .error e)) :
    db'.tables.map Prod.fst = db.tables.map Prod.fst ∧
    (∀ n t, getA db.tables n = some t →
       ∃ t', getA db'.tables n = some t' ∧
         t'.rows = t.rows ∧ t'.schema = t.schema) ∧
    db'.authUser = db.authUser ∧ db'.authPassHash = db.authPassHash := by
  unfold insertBranch at hrun
  by_cases hlen : toks.length < 2
  · rw [if_pos hlen] at hrun
    injection hrun with h1 _
    subst h1
    exact ⟨rfl, fun n t ht => ⟨t, ht, rfl, rfl⟩, rfl, rfl⟩
  · rw [if_neg hlen] at hrun
    cases hjs : chFindIdx? '{' qc with
    | none =>
        simp only [hjs] at hrun
        injection hrun with h1 _
        subst h1
        exact ⟨rfl, fun n t ht => ⟨t, ht, rfl, rfl⟩, rfl, rfl⟩
    | some js =>
        cases hje : chRFindIdx? '}' qc with
        | none =>
            simp only [hjs, hje] at hrun
            injection hrun with h1 _
            subst h1
            exact ⟨rfl, fun n t ht => ⟨t, ht, rfl, rfl⟩, rfl, rfl⟩
        | some je =>
            simp only [hjs, hje] at hrun
            cases hpo : parseJobject
                (if js ≤ je then (qc.drop js).take (je + 1 - js) else qc.drop js) with
            | none =>
                simp only [hpo] at hrun
                injection hrun with h1 _
                subst h1
                exact ⟨rfl, fun n t ht => ⟨t, ht, rfl, rfl⟩, rfl, rfl⟩
            | some values =>
                simp only [hpo] at hrun
                cases hgt : getA db.tables ((toks.get? 1).getD "") with
                | none =>
                    simp only [hgt] at hrun
                    injection hrun with h1 _
                    subst h1
                    exact ⟨rfl, fun n t ht => ⟨t, ht, rfl, rfl⟩, rfl, rfl⟩
                | some t =>
                    simp only [hgt] at hrun
                    rcases hins : Insert t values with ⟨t', err⟩
                    have hparts := Insert_parts t values
                    rw [hins] at hparts
                    obtain ⟨hps, _, hpr, _⟩ := hparts
                    cases err with
                    | none =>
                        simp only [hins] at hrun
                        injection hrun with _ h2
                        cases h2
                    | some e' =>
                        simp only [hins] at hrun
                        injection hrun with h1 _
                        subst h1
                        refine ⟨?_, ?_, rfl, rfl⟩
                        · exact setA_keys_of_mem db.tables _ t t' hgt
                        · intro n tt htt
                          by_cases hn : (toks.get? 1).getD "" = n
                          · subst hn
                            have htteq : tt = t :=
                              (Option.some.inj (hgt.symm.trans htt)).symm
                            refine ⟨t', getA_setA_self db.tables _ t', ?_, ?_⟩
                            · rw [htteq]
                              exact hpr ⟨e', rfl⟩
                            · rw [htteq]
                              exact hps
                          · refine ⟨tt, ?_, rfl, rfl⟩
                            show getA (setA db.tables _ t') n = some tt
                            rw [getA_setA_ne db.tables _ n t' hn]
                            exact htt

/-- C1 amended: a failing INSERT statement leaves every table's rows and
schema (and the table list and credentials) unchanged — no partial row is
ever committed — though auto-increment counters consumed while the
candidate row was being built remain advanced (see the counterexample),
and a failing CREATE TABLE may leave a partially-defined table behind. -/
theorem claim_C1_amended (db db' : Database) (q : String) (e : DbError)
    (hq : (Tokenize q).head? = some "INSERT")
    (hrun : ExecuteQuery db q = (db', .error e)) :
    db'.tables.map Prod.fst = db.tables.map Prod.fst ∧
    (∀ n t, getA db.tables n = some t →
       ∃ t', getA db'.tables n = some t' ∧
         t'.rows = t.rows ∧ t'.schema = t.schema) ∧
    db'.authUser = db.authUser ∧ db'.authPassHash = db.authPassHash := by
  rw [exec_dispatch_insert db q hq] at hrun
  exact insertBranch_failure_state db db' q.toList (Tokenize q) e hrun

/-- Witness for the amended C1 theorem: the concrete failing insert of the
counterexample preserves rows and schema. -/
theorem claim_C1_amended_witness :
    ((ExecuteQuery dbC1 "INSERT t {}").1.tables.map Prod.fst
        = dbC1.tables.map Prod.fst) ∧
    (∀ n t, getA dbC1.tables n = some t →
       ∃ t', getA (ExecuteQuery dbC1 "INSERT t {}").1.tables n = some t' ∧
         t'.rows = t.rows ∧ t'.schema = t.schema) ∧
    (ExecuteQuery dbC1 "INSERT t {}").1.authUser = dbC1.authUser ∧
    (ExecuteQuery dbC1 "INSERT t {}").1.authPassHash = dbC1.authPassHash :=
  claim_C1_amended dbC1 (ExecuteQuery dbC1 "INSERT t {}").1 "INSERT t {}"
    (.missingColumn "b") (by decide)
    (by
      have : ExecuteQuery dbC1 "INSERT t {}"
          = ((ExecuteQuery dbC1 "INSERT t {}").1, .error (.missingColumn "b")) := by
        decide
      exact this)

/-! ### Persistence lemmas -/

theorem loadSchema_cons (s : AttrSnap) (rest : List AttrSnap) (t : Table) :
    loadSchema (s :: rest) t =
      loadSchema rest
        (if (deserializeAttr s).isAutoIncrement = true then
           ({ t with schema := t.schema ++ [deserializeAttr s] } : Table).setCounter
             (deserializeAttr s).name 1
         else { t with schema := t.schema ++ [deserializeAttr s] }) := rfl

theorem loadSchema_parts (l : List AttrSnap) (t : Table) :
    (loadSchema l t).schema = t.schema ++ l.map deserializeAttr ∧
    (loadSchema l t).rows = t.rows ∧ (loadSchema l t).name = t.name := by
  induction l generalizing t with
  | nil => simp [loadSchema]
  | cons s rest ih =>
      rw [loadSchema_cons]
      by_cases hA : (deserializeAttr s).isAutoIncrement = true
      · rw [if_pos hA]
        obtain ⟨h1, h2, h3⟩ := ih
          (({ t with schema := t.schema ++ [deserializeAttr s] } : Table).setCounter
            (deserializeAttr s).name 1)
        refine ⟨?_, h2, h3⟩
        rw [h1]
        simp [Table.setCounter]
      · rw [if_neg hA]
        obtain ⟨h1, h2, h3⟩ := ih { t with schema := t.schema ++ [deserializeAttr s] }
        refine ⟨?_, h2, h3⟩
        rw [h1]
        simp

theorem recomputeLoop_parts (s : List Attribute) (t : Table) :
    (recomputeLoop s t).schema = t.schema ∧ (recomputeLoop s t).rows = t.rows ∧
    (recomputeLoop s t).name = t.name := by
  induction s generalizing t with
  | nil => exact ⟨rfl, rfl, rfl⟩
  | cons a rest ih =>
      unfold recomputeLoop
      by_cases hA : a.isAutoIncrement = true
      · rw [if_pos hA]
        obtain ⟨h1, h2, h3⟩ := ih (t.setCounter a.name (maxvOf t.rows a.name + 1))
        exact ⟨h1, h2, h3⟩
      · rw [if_neg hA]
        exact ih t

theorem recomputeLoop_counter_not_mem (s : List Attribute) (t : Table) (c : String)
    (h : ∀ b ∈ s, ¬(b.isAutoIncrement = true ∧ b.name = c)) :
    (recomputeLoop s t).getCounter c = t.getCounter c := by
  induction s generalizing t with
  | nil => rfl
  | cons b rest ih =>
      unfold recomputeLoop
      by_cases hA : b.isAutoIncrement = true
      · rw [if_pos hA]
        have hbn : b.name ≠ c := fun hh => h b (List.mem_cons_self b rest) ⟨hA, hh⟩
        rw [ih _ (fun x hx => h x (List.mem_cons_of_mem b hx)),
          getCounter_setCounter_ne t b.name c _ hbn]
      · rw [if_neg hA]
        exact ih t (fun x hx => h x (List.mem_cons_of_mem b hx))

theorem recomputeLoop_counter_mem (s : List Attribute) (t : Table) (c : String)
    (h : ∃ b ∈ s, b.isAutoIncrement = true ∧ b.name = c) :
    (recomputeLoop s t).getCounter c = maxvOf t.rows c + 1 := by
  induction s generalizing t with
  | nil =>
      obtain ⟨b, hb, _⟩ := h
      cases hb
  | cons b rest ih =>
      unfold recomputeLoop
      by_cases hA : b.isAutoIncrement = true
      · rw [if_pos hA]
        by_cases hex : ∃ b' ∈ rest, b'.isAutoIncrement = true ∧ b'.name = c
        · rw [ih _ hex]
          rfl
        · have hbc : b.name = c := by
            obtain ⟨b0, hb0, hb0A, hb0c⟩ := h
            rcases List.mem_cons.mp hb0 with hbe | hbr
            · rw [← hbe]; exact hb0c
            · exact absurd ⟨b0, hbr, hb0A, hb0c⟩ hex
          rw [recomputeLoop_counter_not_mem rest _ c
              (fun x hx hxc => hex ⟨x, hx, hxc⟩)]
          rw [hbc, getCounter_setCounter_self]
      · rw [if_neg hA]
        apply ih
        obtain ⟨b0, hb0, hb0A, hb0c⟩ := h
        rcases List.mem_cons.mp hb0 with hbe | hbr
        · rw [hbe] at hb0A
          exact absurd hb0A hA
        · exact ⟨b0, hbr, hb0A, hb0c⟩

theorem step_max (m v : Int) : (if m < v then v else m) = max m v := by
  rcases le_or_lt v m with h | h
  · rw [if_neg (not_lt.mpr h), max_eq_left h]
  · rw [if_pos h, max_eq_right h.le]

theorem maxvOf_go (rows : List Entity) (c : String) (init : Int) :
    rows.foldl (fun m r =>
      match getA r c with
      | some w =>
          match w.data with
          | .int v => if m < v then v else m
          | _ => m
      | none => m) init = (columnIntValues rows c).foldl max init := by
  induction rows generalizing init with
  | nil => rfl
  | cons r rest ih =>
      simp only [List.foldl_cons, columnIntValues, List.filterMap_cons]
      cases hg : getA r c with
      | none => simp only [hg]; exact ih init
      | some w =>
          cases hd : w.data with
          | int v =>
              simp only [hg, hd, List.foldl_cons]
              rw [step_max]
              exact ih (max init v)
          | null => simp only [hg, hd]; exact ih init
          | bool b => simp only [hg, hd]; exact ih init
          | str s => simp only [hg, hd]; exact ih init

theorem maxvOf_eq_foldl (rows : List Entity) (c : String) :
    maxvOf rows c = (columnIntValues rows c).foldl max 0 :=
  maxvOf_go rows c 0

theorem foldl_max_init_le (l : List Int) (a : Int) : a ≤ l.foldl max a := by
  induction l generalizing a with
  | nil => exact le_refl a
  | cons x rest ih => exact le_trans (le_max_left a x) (ih (max a x))

theorem foldl_max_mem_le (l : List Int) (a : Int) :
    ∀ x ∈ l, x ≤ l.foldl max a := by
  induction l generalizing a with
  | nil => intro x hx; cases hx
  | cons y rest ih =>
      intro x hx
      rcases List.mem_cons.mp hx with hxe | hxr
      · rw [hxe]
        exact le_trans (le_max_right a y) (foldl_max_init_le rest (max a y))
      · exact ih (max a y) x hxr

theorem foldl_max_mem (l : List Int) (a : Int) :
    l.foldl max a = a ∨ l.foldl max a ∈ l := by
  induction l generalizing a with
  | nil => exact Or.inl rfl
  | cons x rest ih =>
      rw [List.foldl_cons]
      rcases le_or_lt x a with hxa | hxa
      · rw [max_eq_left hxa]
        rcases ih a with h | h
        · exact Or.inl h
        · exact Or.inr (List.mem_cons_of_mem x h)
      · rw [max_eq_right hxa.le]
        rcases ih x with h | h
        · rw [h]
          exact Or.inr (List.mem_cons_self x rest)
        · exact Or.inr (List.mem_cons_of_mem x h)

theorem maxvOf_eq_max_clamp (rows : List Entity) (c : String) (m : Int)
    (hm : (columnIntValues rows c).maximum = some m) :
    maxvOf rows c = max 0 m := by
  have hmem : m ∈ columnIntValues rows c := List.maximum_mem hm
  have hub : ∀ x ∈ columnIntValues rows c, x ≤ m :=
    fun x hx => List.le_maximum_of_mem hx hm
  rw [maxvOf_eq_foldl]
  apply le_antisymm
  · rcases foldl_max_mem (columnIntValues rows c) 0 with h | h
    · rw [h]
      exact le_max_left 0 m
    · exact le_trans (hub _ h) (le_max_right 0 m)
  · apply max_le
    · exact foldl_max_init_le _ 0
    · exact foldl_max_mem_le _ 0 m hmem

theorem maxvOf_of_no_values (rows : List Entity) (c : String)
    (hm : (columnIntValues rows c).maximum = none) :
    maxvOf rows c = 0 := by
  rw [maxvOf_eq_foldl, List.maximum_eq_none.mp hm]
  rfl

theorem maxvOf_eq_max (rows : List Entity) (c : String) (m : Int)
    (hm : (columnIntValues rows c).maximum = some m) (h0 : 0 ≤ m) :
    maxvOf rows c = m := by
  have hmem : m ∈ columnIntValues rows c := List.maximum_mem hm
  have hub : ∀ x ∈ columnIntValues rows c, x ≤ m :=
    fun x hx => List.le_maximum_of_mem hx hm
  rw [maxvOf_eq_foldl]
  apply le_antisymm
  · rcases foldl_max_mem (columnIntValues rows c) 0 with h | h
    · rw [h]; exact h0
    · exact hub _ h
  · exact foldl_max_mem_le _ 0 m hmem

theorem buildRowLoop_all_supplied (s : List Attribute) (values : List (String × Val))
    (t : Table) (row : Entity)
    (hcov : ∀ a ∈ s, (getA values a.name).isSome) :
    (buildRowLoop s values t row).1 = t ∧ (buildRowLoop s values t row).2.2 = none := by
  induction s generalizing row with
  | nil => exact ⟨rfl, rfl⟩
  | cons a rest ih =>
      obtain ⟨v, hv⟩ :=
        Option.isSome_iff_exists.mp (hcov a (List.mem_cons_self a rest))
      rw [buildRowLoop_cons_supplied a rest values t row v hv]
      exact ih _ (fun b hb => hcov b (List.mem_cons_of_mem a hb))

theorem buildRowLoop_supplied_data (s : List Attribute) (values : List (String × Val))
    (t : Table) (row : Entity) (n : String) (v : Val)
    (hv : getA values n = some v)
    (hstart : (∃ ty, getA row n = some ⟨ty, v⟩) ∨ n ∈ s.map (·.name))
    (herr : (buildRowLoop s values t row).2.2 = none) :
    ∃ ty, getA (buildRowLoop s values t row).2.1 n = some ⟨ty, v⟩ := by
  induction s generalizing t row with
  | nil =>
      rcases hstart with ⟨ty, hty⟩ | hmem
      · exact ⟨ty, hty⟩
      · simp at hmem
  | cons a rest ih =>
      by_cases han : a.name = n
      · have hva : getA values a.name = some v := by rw [han]; exact hv
        rw [buildRowLoop_cons_supplied a rest values t row v hva] at herr ⊢
        apply ih _ _ _ herr
        left
        refine ⟨a.type, ?_⟩
        rw [han, getA_setA_self]
      · have hstart' : ∀ (x : Value),
            (∃ ty, getA (setA row a.name x) n = some ⟨ty, v⟩) ∨
              n ∈ rest.map (·.name) := by
          intro x
          rcases hstart with ⟨ty, hty⟩ | hmem
          · exact Or.inl ⟨ty, by rw [getA_setA_ne row a.name n x han]; exact hty⟩
          · simp only [List.map_cons, List.mem_cons] at hmem
            rcases hmem with hmem | hmem
            · exact absurd hmem.symm han
            · exact Or.inr hmem
        cases hva : getA values a.name with
        | some w =>
            rw [buildRowLoop_cons_supplied a rest values t row w hva] at herr ⊢
            exact ih _ _ (hstart' _) herr
        | none =>
            by_cases hA : a.isAutoIncrement = true
            · rw [buildRowLoop_cons_auto a rest values t row hva hA] at herr ⊢
              exact ih _ _ (hstart' _) herr
            · rw [Bool.not_eq_true] at hA
              by_cases hD : a.hasDefault = true
              · rw [buildRowLoop_cons_default a rest values t row hva hA hD] at herr ⊢
                exact ih _ _ (hstart' _) herr
              · rw [Bool.not_eq_true] at hD
                by_cases hN : a.isNotNull = true
                · rw [buildRowLoop_cons_notnull a rest values t row hva hA hD hN] at herr
                  simp at herr
                · rw [Bool.not_eq_true] at hN
                  rw [buildRowLoop_cons_null a rest values t row hva hA hD hN] at herr ⊢
                  exact ih _ _ (hstart' _) herr

theorem replayRows_parts (rs : List (List (String × Val))) (t t' : Table)
    (h : replayRows rs t = .ok t') :
    t'.schema = t.schema ∧ t'.name = t.name := by
  induction rs generalizing t with
  | nil =>
      rw [replayRows] at h
      cases h
      exact ⟨rfl, rfl⟩
  | cons r rest ih =>
      rw [replayRows] at h
      rcases hins : Insert t r with ⟨t1, err⟩
      rw [hins] at h
      cases err with
      | some e => cases h
      | none =>
          have hp := Insert_parts t r
          rw [hins] at hp
          obtain ⟨hs, hn, _, _⟩ := hp
          obtain ⟨ihs, ihn⟩ := ih t1 h
          exact ⟨ihs.trans hs, ihn.trans hn⟩

theorem replayRows_err_dup (rs : List (List (String × Val))) (t : Table) (e : DbError)
    (hcov : ∀ r ∈ rs, ∀ a ∈ t.schema, (getA r a.name).isSome)
    (hrows : ∀ x ∈ t.rows, ∀ a ∈ t.schema, (getA x a.name).isSome)
    (h : replayRows rs t = .error e) :
    ∃ c, e = .duplicatePrimaryKey c := by
  induction rs generalizing t with
  | nil => cases h
  | cons r rest ih =>
      rw [replayRows] at h
      have hcovr := hcov r (List.mem_cons_self r rest)
      rcases hbr : buildRow t r with ⟨t1, row, err⟩
      have hball := buildRowLoop_all_supplied t.schema r t [] hcovr
      rw [show buildRowLoop t.schema r t [] = (t1, row, err) from hbr] at hball
      obtain ⟨ht1, herr⟩ := hball
      have ht1' : t1 = t := ht1
      have herr' : err = none := herr
      rw [ht1', herr'] at hbr
      have hrowcov : ∀ a ∈ t.schema, (getA row a.name).isSome := by
        intro a ha
        have hc := buildRowLoop_covers t.schema r t []
          (by rw [show buildRowLoop t.schema r t [] = (t, row, none) from hbr]) a ha
        rw [show buildRowLoop t.schema r t [] = (t, row, none) from hbr] at hc
        exact hc
      cases hpk : pkCheck t.schema t.rows row with
      | some e' =>
          rw [Insert_eq_pk_err t r t row e' hbr hpk] at h
          have he : e = e' := (Except.error.inj h).symm
          obtain ⟨a, ha, haP, hae⟩ := pkCheck_some_cov t.schema t.rows row e'
            (fun a ha _ => hrowcov a ha)
            (fun a ha _ => fun x hx => hrows x hx a ha) hpk
          exact ⟨a.name, he.trans hae⟩
      | none =>
          rw [Insert_eq_ok t r t row hbr hpk] at h
          apply ih ({ t with rows := t.rows ++ [row] }) ?_ ?_ h
          · intro r' hr' a ha
            exact hcov r' (List.mem_cons_of_mem r hr') a ha
          · intro x hx a ha
            rcases List.mem_append.mp hx with hx | hx
            · exact hrows x hx a ha
            · rw [List.mem_singleton.mp hx]
              exact hrowcov a ha

theorem replayRows_ok_pk_distinct (rs : List (List (String × Val))) (t t' : Table)
    (a : Attribute) (ha : a ∈ t.schema) (hP : a.isPrimaryKey = true)
    (hcov : ∀ r ∈ rs, ∀ b ∈ t.schema, (getA r b.name).isSome)
    (h : replayRows rs t = .ok t') :
    (∀ r ∈ rs, ∀ er ∈ t.rows, ∀ v w, getA r a.name = some v →
        getA er a.name = some w → w.data ≠ v) ∧
    List.Pairwise (fun r1 r2 => ∀ v1 v2, getA r1 a.name = some v1 →
        getA r2 a.name = some v2 → v1 ≠ v2) rs := by
  induction rs generalizing t with
  | nil =>
      refine ⟨?_, List.Pairwise.nil⟩
      intro r hr
      cases hr
  | cons r rest ih =>
      rw [replayRows] at h
      have hcovr := hcov r (List.mem_cons_self r rest)
      rcases hbr : buildRow t r with ⟨t1, row, err⟩
      have hball := buildRowLoop_all_supplied t.schema r t [] hcovr
      rw [show buildRowLoop t.schema r t [] = (t1, row, err) from hbr] at hball
      obtain ⟨ht1, herr⟩ := hball
      have ht1' : t1 = t := ht1
      have herr' : err = none := herr
      rw [ht1', herr'] at hbr
      -- the supplied pk value of the head row
      obtain ⟨v0, hv0⟩ := Option.isSome_iff_exists.mp (hcovr a ha)
      obtain ⟨ty0, hty0⟩ := by
        refine buildRowLoop_supplied_data t.schema r t [] a.name v0 hv0
          (Or.inr (List.mem_map_of_mem (·.name) ha)) ?_
        rw [show buildRowLoop t.schema r t [] = (t, row, none) from hbr]
      rw [show buildRowLoop t.schema r t [] = (t, row, none) from hbr] at hty0
      cases hpk : pkCheck t.schema t.rows row with
      | some e' =>
          rw [Insert_eq_pk_err t r t row e' hbr hpk] at h
          cases h
      | none =>
          rw [Insert_eq_ok t r t row hbr hpk] at h
          have hsch : ({ t with rows := t.rows ++ [row] } : Table).schema = t.schema := rfl
          obtain ⟨ihA, ihP⟩ := ih ({ t with rows := t.rows ++ [row] }) ha
            (fun r' hr' b hb => hcov r' (List.mem_cons_of_mem r hr') b hb) h
          have hnodup := pkCheck_none_nodup t.schema t.rows row a ha hP hpk
          obtain ⟨w', hw', hall⟩ := hnodup
          have hw'eq : w' = ⟨ty0, v0⟩ := Option.some.inj (hw'.symm.trans hty0)
          constructor
          · intro r2 hr2 er her v w hgv hgw
            rcases List.mem_cons.mp hr2 with hre | hrr
            · -- head row against existing rows
              subst hre
              have hveq : v = v0 := Option.some.inj (hgv.symm.trans hv0)
              obtain ⟨we, hwe, hwne⟩ := hall er her
              have hweq : we = w := Option.some.inj (hwe.symm.trans hgw)
              subst hweq
              rw [hveq]
              rw [hw'eq] at hwne
              exact hwne
            · exact ihA r2 hrr er (List.mem_append_left _ her) v w hgv hgw
          · constructor
            · -- head against each later row
              intro r2 hr2 v1 v2 hg1 hg2
              have hv1 : v1 = v0 := Option.some.inj (hg1.symm.trans hv0)
              have := ihA r2 hr2 row
                (List.mem_append_right _ (List.mem_singleton_self row)) v2 ⟨ty0, v0⟩
                hg2 hty0
              intro hcon
              apply this
              rw [← hv1, hcon]
            · exact ihP

/-- C6 (amended): for a table loaded from a snapshot, after all rows are
replayed each auto-increment column's counter equals one plus the maximum
integer value observed for that column clamped below at zero: the recompute
folds from an initial `maxv = 0`, so the counter is `m + 1` when the
observed maximum `m` is nonnegative, and `1` when all observed values are
negative or the column has no integer values at all. -/
theorem claim_C6_counter_recompute (n : String) (snap : TableSnap) (t : Table)
    (hload : deserializeTable n snap = .ok t)
    (a : Attribute) (ha : a ∈ t.schema) (hA : a.isAutoIncrement = true) :
    (∀ m : Int, (columnIntValues t.rows a.name).maximum = some m →
       t.getCounter a.name = max 0 m + 1) ∧
    ((columnIntValues t.rows a.name).maximum = none →
       t.getCounter a.name = 1) := by
  unfold deserializeTable at hload
  cases hrep : replayRows snap.rows (loadSchema snap.schema ⟨n, [], [], []⟩) with
  | error e =>
      rw [hrep] at hload
      cases hload
  | ok t1 =>
      rw [hrep] at hload
      have ht : t = recomputeCounters t1 := (Except.ok.inj hload).symm
      subst ht
      obtain ⟨hrs, hrr, _⟩ := recomputeLoop_parts t1.schema t1
      have ha1 : a ∈ t1.schema := by
        rw [show recomputeCounters t1 = recomputeLoop t1.schema t1 from rfl] at ha
        rw [hrs] at ha
        exact ha
      have hc := recomputeLoop_counter_mem t1.schema t1 a.name ⟨a, ha1, hA, rfl⟩
      have hcnt : (recomputeCounters t1).getCounter a.name = maxvOf t1.rows a.name + 1 := hc
      have hrows : (recomputeCounters t1).rows = t1.rows := hrr
      constructor
      · intro m hm
        rw [hrows] at hm
        rw [hcnt, maxvOf_eq_max_clamp t1.rows a.name m hm]
      · intro hm
        rw [hrows] at hm
        rw [hcnt, maxvOf_of_no_values t1.rows a.name hm]
        decide

/-- Snapshot whose auto-increment primary-key column has maximum value 7. -/
def snapC6 : TableSnap :=
  { schema := [{ name := "id", type := 2, primary := some true, auto := some true }],
    rows := [[("id", .int 7)], [("id", .int 3)]] }

/-- The table `snapC6` loads to. -/
def tableC6 : Table :=
  ⟨"t", [{ name := "id", type := .INT, isPrimaryKey := true, isAutoIncrement := true }],
   [[("id", ⟨.INT, .int 7⟩)], [("id", ⟨.INT, .int 3⟩)]], [("id", 8)]⟩

/-- Witness for C6: the snapshot with maximum value 7 loads with counter
max(0,7)+1 = 8, and the next insert that omits the column is assigned 8. -/
theorem claim_C6_witness :
    tableC6.getCounter "id" = max 0 7 + 1 ∧
    getA (buildRow tableC6 []).2.1 "id" = some ⟨.INT, .int 8⟩ :=
  ⟨(claim_C6_counter_recompute "t" snapC6 tableC6 (by decide)
     { name := "id", type := .INT, isPrimaryKey := true, isAutoIncrement := true }
     (by decide) (by decide)).1 7 (by decide), by decide⟩

/-- Fresh table with one auto-increment primary-key column, as CREATE makes it. -/
def tableC6fresh : Table :=
  ⟨"t", [{ name := "id", type := .INT, isPrimaryKey := true, isAutoIncrement := true }],
   [], [("id", 1)]⟩

/-- The table after `INSERT t {"id": -5}`: one row, counter untouched. -/
def tableC6neg : Table :=
  ⟨"t", [{ name := "id", type := .INT, isPrimaryKey := true, isAutoIncrement := true }],
   [[("id", ⟨.INT, .int (-5)⟩)]], [("id", 1)]⟩

/-- The snapshot `tableC6neg` serializes to. -/
def snapC6neg : TableSnap :=
  { schema := [{ name := "id", type := 2, primary := some true, auto := some true }],
    rows := [[("id", .int (-5))]] }

/-- Counterexample for C6 as originally stated: a reachable snapshot (produced
by inserting the explicit value -5 into a fresh table and serializing) whose
auto-increment column's maximum observed value is -5 loads with counter 1,
not -5 + 1 = -4, because the recompute clamps `maxv` at its initial 0. -/
theorem claim_C6_counterexample :
    Insert tableC6fresh [("id", Val.int (-5))] = (tableC6neg, none) ∧
    serializeTable tableC6neg = snapC6neg ∧
    (deserializeTable "t" snapC6neg).map (fun tb => tb.getCounter "id") = .ok 1 ∧
    (deserializeTable "t" snapC6neg).map
        (fun tb => (columnIntValues tb.rows "id").maximum) = .ok (some (-5)) ∧
    ¬((1 : Int) = -5 + 1) := by decide

/-- C7: deserialization replays every persisted row through the runtime
`Insert` (`replayRows` is literally a fold of `Insert`), so runtime
constraints re-apply on load; in particular a snapshot two of whose rows
hold structurally equal values in a primary-key column fails to load with
`DuplicatePrimaryKey`. -/
theorem claim_C7_replay_constraints (n : String) (snap : TableSnap)
    (asnap : AttrSnap) (hmem : asnap ∈ snap.schema) (hP : asnap.primary = some true)
    (hcov : ∀ r ∈ snap.rows, ∀ s ∈ snap.schema, (getA r s.name).isSome)
    (i j : Nat) (hij : i < j) (hj : j < snap.rows.length)
    (v : Val)
    (hvi : getA (snap.rows.get ⟨i, lt_trans hij hj⟩) asnap.name = some v)
    (hvj : getA (snap.rows.get ⟨j, hj⟩) asnap.name = some v) :
    ∃ c, deserializeTable n snap = .error (.duplicatePrimaryKey c) := by
  obtain ⟨hs0, hr0, _⟩ := loadSchema_parts snap.schema ⟨n, [], [], []⟩
  have hs0' : (loadSchema snap.schema ⟨n, [], [], []⟩).schema
      = snap.schema.map deserializeAttr := by
    rw [hs0]
    rfl
  have hcov0 : ∀ r ∈ snap.rows,
      ∀ b ∈ (loadSchema snap.schema ⟨n, [], [], []⟩).schema,
        (getA r b.name).isSome := by
    intro r hr b hb
    rw [hs0'] at hb
    obtain ⟨sb, hsb, hbe⟩ := List.mem_map.mp hb
    rw [← hbe]
    exact hcov r hr sb hsb
  have hapk : deserializeAttr asnap ∈ (loadSchema snap.schema ⟨n, [], [], []⟩).schema := by
    rw [hs0']
    exact List.mem_map_of_mem _ hmem
  have hapkP : (deserializeAttr asnap).isPrimaryKey = true := by
    simp [deserializeAttr, hP]
  cases hrep : replayRows snap.rows (loadSchema snap.schema ⟨n, [], [], []⟩) with
  | error e =>
      obtain ⟨c, hc⟩ := replayRows_err_dup snap.rows _ e hcov0
        (by rw [hr0]; intro x hx; cases hx) hrep
      refine ⟨c, ?_⟩
      unfold deserializeTable
      rw [hrep, hc]
  | ok t1 =>
      exfalso
      obtain ⟨_, hpw⟩ := replayRows_ok_pk_distinct snap.rows _ t1 (deserializeAttr asnap)
        hapk hapkP hcov0 hrep
      have hrel := (List.pairwise_iff_get.mp hpw) ⟨i, lt_trans hij hj⟩ ⟨j, hj⟩ hij
      exact hrel v v hvi hvj rfl

/-- Snapshot with a duplicated primary-key value. -/
def snapC7 : TableSnap :=
  { schema := [{ name := "id", type := 2, primary := some true }],
    rows := [[("id", .int 1)], [("id", .int 1)]] }

/-- Witness for C7: the corrupted snapshot fails to load with
`DuplicatePrimaryKey`. -/
theorem claim_C7_witness :
    ∃ c, deserializeTable "t" snapC7 = .error (.duplicatePrimaryKey c) :=
  claim_C7_replay_constraints "t" snapC7
    { name := "id", type := 2, primary := some true } (by decide) (by decide)
    (by decide) 0 1 (by decide) (by decide) (.int 1) (by decide) (by decide)

end StudentDb
